import Mathlib

/-!
# Verification of the `pandas-solutions` matcher and merger

Shallow embedding of `src/pandas_solutions/matcher.py` and
`src/pandas_solutions/merger.py`.

Modelling conventions:
* a pandas `DataFrame` is a list of typed rows together with its list of
  column names (`df.columns`); row order is list order;
* a multi-column `sort_values` (pandas uses the stable `np.lexsort`) is
  `List.insertionSort` with the "key not greater" relation;
* a single-column `sort_values` (pandas default `kind='quicksort'`, which
  pandas documents as unstable) only guarantees a sorted permutation with an
  unspecified order of tied rows.  The deployed definitions below determinize
  it with the same stable `insertionSort` — adequate for every property that
  is insensitive to tie order (reassembly keys on distinct original row
  positions) — while the tie-sensitive properties are settled against the
  contract model `IsPdSortBy`, which quantifies over every sorted permutation
  the unstable sort may produce;
* `pd.merge_asof(..., on='cycle', direction='backward')` on a right table
  sorted by `cycle` gives each left row the payload of the *last* right row
  whose `cycle` does not exceed the left row's `cycle` (`NaN`, modelled as
  `none`, when there is no such row);
* the `ValueError`s raised by `matcher.py` are an inductive error type whose
  constructors record the raise site and the data interpolated into the
  message;
* payload (`data`) values of DataFrame A are opaque non-null values of a type
  parameter `α`; the columns of DataFrame B other than `address` and `cycle`
  (`way`, `set` and any caller extras) are packed into an opaque `rest` field
  of a type parameter `β` and carried through unchanged.
-/

namespace PandasSolutions

open List

/-- Comparison by a sort key, the relation under which pandas `sort_values`
sorts (stable, ascending). -/
def keyRel {γ κ : Type} [LinearOrder κ] (key : γ → κ) : γ → γ → Prop :=
  fun x y => key x ≤ key y

instance {γ κ : Type} [LinearOrder κ] (key : γ → κ) : DecidableRel (keyRel key) :=
  fun x y => inferInstanceAs (Decidable (key x ≤ key y))

instance {γ κ : Type} [LinearOrder κ] (key : γ → κ) : IsTotal γ (keyRel key) :=
  ⟨fun x y => le_total (key x) (key y)⟩

instance {γ κ : Type} [LinearOrder κ] (key : γ → κ) : IsTrans γ (keyRel key) :=
  ⟨fun _ _ _ h h' => le_trans h h'⟩

/-- pandas `sort_values` by the column(s) extracted by `key`: a stable
ascending sort. -/
def sortValuesBy {γ κ : Type} [LinearOrder κ] (key : γ → κ) (l : List γ) : List γ :=
  insertionSort (keyRel key) l

/-- A row of DataFrame A: columns `address`, `data`, `cycle`
(`matcher.py`, docstring of `DataFrameMatcher`). -/
structure RowA (α : Type) where
  address : String
  data : α
  cycle : Int
deriving DecidableEq, Repr

/-- A row of DataFrame B: required columns `address` and `cycle`; `rest` packs
the remaining columns (`way`, `set`, caller extras), which `match` only carries
through. -/
structure RowB (β : Type) where
  address : String
  cycle : Int
  rest : β
deriving DecidableEq, Repr

/-- DataFrame A: its column-name list (`df.columns`) and its rows. -/
structure DataFrameA (α : Type) where
  cols : List String
  rows : List (RowA α)
deriving DecidableEq, Repr

/-- DataFrame B: its column-name list and its rows. -/
structure DataFrameB (β : Type) where
  cols : List String
  rows : List (RowB β)
deriving DecidableEq, Repr

/-- The `ValueError`s of `matcher.py`.  Every constructor is a Python
`ValueError`; the constructor records the raise site and the data that the
f-string interpolates into the message. -/
inductive MatcherError where
  | schemaErrorA (missing : List String)
  | schemaErrorB (missing : List String)
  | notInitialized
deriving DecidableEq, Repr

/-- The message of each `ValueError` raised by `matcher.py`. -/
def MatcherError.message : MatcherError → String
  | .schemaErrorA missing => "DataFrame A 缺少必需字段: " ++ String.intercalate ", " missing
  | .schemaErrorB missing => "DataFrame B 缺少必需字段: " ++ String.intercalate ", " missing
  | .notInitialized => "请先调用 set_dataframes 设置数据"

/-- The mutable state of a `DataFrameMatcher` object. -/
structure DataFrameMatcher (α β : Type) where
  _df_a : Option (DataFrameA α)
  _df_b : Option (DataFrameB β)
  _indexed_df_a : Option (List (RowA α))
deriving DecidableEq, Repr

/-- Python `DataFrameMatcher.__init__`: all three attributes start as `None`. -/
def DataFrameMatcher.new (α β : Type) : DataFrameMatcher α β :=
  ⟨none, none, none⟩

/-- Source line of `set_dataframes` defining `required_cols_a`: the set of
the three column names address, data and cycle. -/
def required_cols_a : List String := ["address", "data", "cycle"]

/-- Source line of `set_dataframes` defining `required_cols_b`: the set of
the four column names cycle, address, way and set. -/
def required_cols_b : List String := ["cycle", "address", "way", "set"]

/-- Python `required_cols - set(df.columns)`: the required columns absent from the
DataFrame, as a deterministic list (Python's value is an unordered set). -/
def missingCols (required cols : List String) : List String :=
  required.filter (fun c => !(cols.contains c))

/-- Method `set_dataframes`: validate the required columns of both
DataFrames (raising `ValueError` naming the missing ones), store copies and
reset the index. -/
def DataFrameMatcher.set_dataframes {α β : Type} (_m : DataFrameMatcher α β)
    (df_a : DataFrameA α) (df_b : DataFrameB β) :
    Except MatcherError (DataFrameMatcher α β) :=
  if missingCols required_cols_a df_a.cols ≠ [] then
    .error (.schemaErrorA (missingCols required_cols_a df_a.cols))
  else if missingCols required_cols_b df_b.cols ≠ [] then
    .error (.schemaErrorB (missingCols required_cols_b df_b.cols))
  else
    .ok ⟨some df_a, some df_b, none⟩

/-- The code points of a string; comparing these lists lexicographically is
exactly how Python (and hence pandas) orders strings. -/
def strKey (s : String) : List Nat :=
  s.data.map Char.toNat

/-- The sort key of `_build_index`:
`sort_values(['address', 'cycle'])`, i.e. lexicographic (address, cycle). -/
def addrCycleKey {α : Type} (r : RowA α) : Lex (List Nat × Int) :=
  toLex (strKey r.address, r.cycle)

/-- Body of `_build_index`:
`self._df_a.sort_values(['address', 'cycle']).reset_index(drop=True)`. -/
def buildIndexRows {α : Type} (rows : List (RowA α)) : List (RowA α) :=
  sortValuesBy addrCycleKey rows

/-- Method `_build_index`: fails when sources are unset, else caches
the sorted copy of DataFrame A. -/
def DataFrameMatcher._build_index {α β : Type} (m : DataFrameMatcher α β) :
    Except MatcherError (DataFrameMatcher α β) :=
  match m._df_a with
  | none => .error .notInitialized
  | some dfa => .ok ⟨m._df_a, m._df_b, some (buildIndexRows dfa.rows)⟩

/-- pandas `Series.unique`: the distinct values in order of first
occurrence. -/
def pdUnique {γ : Type} [DecidableEq γ] : List γ → List γ
  | [] => []
  | x :: xs => x :: (pdUnique xs).filter (fun y => decide (y ≠ x))

/-- Right table of the per-address `merge_asof`:
`indexed_a[indexed_a['address'] == address][['cycle', 'data']].sort_values('cycle')`.
The single-column sort (default `kind='quicksort'`, unstable) is determinized
here as the stable sort; `rightGroupForWith` below leaves it as a parameter
constrained only by the pandas contract, and the tie-sensitive properties are
proved against that parametrized form. -/
def rightGroupFor {α : Type} (indexed : List (RowA α)) (a : String) : List (Int × α) :=
  sortValuesBy Prod.fst
    ((indexed.filter (fun r => r.address == a)).map (fun r => (r.cycle, r.data)))

/-- Left table of the per-address `merge_asof`:
`original_index[original_index['address'] == address].sort_values('cycle')`,
where `original_index = self._df_b.reset_index(drop=False)` tags every row of B
with its original position.  This single-column sort (unstable in pandas) is
determinized as the stable sort; the choice is immaterial to every property
proved about it, because the final reassembly sorts on the distinct original
positions. -/
def leftGroupFor {β : Type} (rowsB : List (RowB β)) (a : String) : List (Nat × RowB β) :=
  sortValuesBy (fun p => p.2.cycle) (rowsB.enum.filter (fun p => p.2.address == a))

/-- Model of `pd.merge_asof(left, right, on='cycle', direction='backward')` for a right
table sorted by `cycle`: each left row receives the payload of the last right
row whose `cycle` does not exceed its own (`none` = pandas `NaN` when there is
no such row). -/
def mergeAsofBackward {α β : Type} (left : List (Nat × RowB β)) (right : List (Int × α)) :
    List (Nat × RowB β × Option α) :=
  left.map fun p =>
    (p.1, p.2, ((right.filter (fun q => decide (q.1 ≤ p.2.cycle))).getLast?).map Prod.snd)

/-- The `results` list built by the loop of `match`: one merged frame per
distinct address of B (order of first occurrence); addresses absent from A get
a null `data` column (`merged['data'] = None`). -/
def matchResults {α β : Type} (indexed : List (RowA α)) (rowsB : List (RowB β)) :
    List (List (Nat × RowB β × Option α)) :=
  (pdUnique (rowsB.map RowB.address)).map fun a =>
    if 0 < (rightGroupFor indexed a).length then
      mergeAsofBackward (leftGroupFor rowsB a) (rightGroupFor indexed a)
    else
      (leftGroupFor rowsB a).map fun p => (p.1, p.2, (none : Option α))

/-- Reassembly at the end of `match`:
`pd.concat(results, ignore_index=True).set_index('index').sort_index()` when
`results` is non-empty, else `self._df_b.copy()` with a null `data` column. -/
def matchTable {α β : Type} (indexed : List (RowA α)) (rowsB : List (RowB β)) :
    List (RowB β × Option α) :=
  if 0 < (matchResults indexed rowsB).length then
    (sortValuesBy Prod.fst (matchResults indexed rowsB).flatten).map fun p => (p.2.1, p.2.2)
  else
    rowsB.map fun b => (b, (none : Option α))

/-- Method `match`: fails with the not-initialized `ValueError` when
sources are unset; otherwise builds the index if absent and returns the new
result table (DataFrame B plus the appended `data` column) together with the
updated object state. -/
def DataFrameMatcher.do_match {α β : Type} (m : DataFrameMatcher α β) :
    Except MatcherError (DataFrameMatcher α β × List (RowB β × Option α)) :=
  match m._df_a, m._df_b with
  | some dfa, some dfb =>
    let indexed := m._indexed_df_a.getD (buildIndexRows dfa.rows)
    .ok (⟨some dfa, some dfb, some indexed⟩, matchTable indexed dfb.rows)
  | _, _ => .error .notInitialized

/-- The dictionary returned by `get_match_statistics`; the cycle ranges are
`(min, max)` of the `cycle` column (`none` = pandas `NaN` on an empty frame). -/
structure MatchStatistics where
  df_a_rows : Nat
  df_b_rows : Nat
  unique_addresses_a : Nat
  unique_addresses_b : Nat
  df_a_cycle_range : Option Int × Option Int
  df_b_cycle_range : Option Int × Option Int
deriving DecidableEq, Repr

/-- Method `get_match_statistics`: the empty dict (here `none`) when sources
are unset, else the row counts, distinct address counts and cycle ranges of
the stored frames; purely read-only. -/
def DataFrameMatcher.get_match_statistics {α β : Type} (m : DataFrameMatcher α β) :
    Option MatchStatistics :=
  match m._df_a, m._df_b with
  | some dfa, some dfb =>
    some ⟨dfa.rows.length, dfb.rows.length,
      (pdUnique (dfa.rows.map RowA.address)).length,
      (pdUnique (dfb.rows.map RowB.address)).length,
      ((dfa.rows.map RowA.cycle).min?, (dfa.rows.map RowA.cycle).max?),
      ((dfb.rows.map RowB.cycle).min?, (dfb.rows.map RowB.cycle).max?)⟩
  | _, _ => none

/-- Spec-side helper: the element of greatest key, ties resolved to the latest
occurrence in the list ("last write wins"). -/
def lastMaxBy {γ κ : Type} [LinearOrder κ] (key : γ → κ) : List γ → Option γ
  | [] => none
  | x :: xs =>
    match lastMaxBy key xs with
    | none => some x
    | some m => if key m < key x then some x else some m

/-- Spec-side lookup (`Lookup(partition_key, query_time)` of the spec): among
the records of A in partition `a` with time not exceeding `q`, the payload of
the one of maximal time, later input occurrence winning ties. -/
def specLookup {α : Type} (rowsA : List (RowA α)) (a : String) (q : Int) : Option α :=
  (lastMaxBy RowA.cycle
      ((rowsA.filter (fun r => r.address == a)).filter
        (fun r => decide (r.cycle ≤ q)))).map RowA.data

/-- The `ValueError`s of `merger.py`'s `merge_csv_files`. -/
inductive MergerError where
  | invalidDir
  | noCsvFiles
deriving DecidableEq, Repr

/-- Method `merge_csv_files` of `Merger`.  The input directory is `none` when absent or
not a directory, otherwise the list of (file name, parsed rows); a parsed CSV
row is an opaque `ρ`, with `cell r c` the value of row `r` in column `c`
(cell values live in a linearly ordered `κ`).  The returned table is what
`_save_dataframe` writes.  `_find_csv_files` sorts the files by name;
`_read_files_parallel` (`executor.map`) preserves that order; the parts are
concatenated (`pd.concat(..., ignore_index=True)`) and, when `sort_fields` is
non-empty (Python truthiness collapses `None` and `[]`), sorted ascending by
those columns.  pandas sorts a multi-field list with the stable `lexsort`, but
a one-field list with the default unstable quicksort; this definition
determinizes the sort as stable, and `merge_csv_files_with` below leaves it as
a parameter constrained only by the sorted-permutation contract, against which
the tie-sensitive property is settled. -/
def merge_csv_files {ρ κ : Type} [LinearOrder κ] (cell : ρ → String → κ)
    (input_dir : Option (List (String × List ρ))) (sort_fields : List String) :
    Except MergerError (List ρ) :=
  match input_dir with
  | none => .error .invalidDir
  | some files =>
    if files.length = 0 then .error .noCsvFiles
    else if sort_fields ≠ [] then
      .ok (sortValuesBy (fun r => sort_fields.map (cell r))
        (((sortValuesBy (fun f => strKey f.1) files).map Prod.snd).flatten))
    else
      .ok (((sortValuesBy (fun f => strKey f.1) files).map Prod.snd).flatten)

/-!
## Generic facts about the stable-sort model

`List.insertionSort` by a key relation is the model of pandas `sort_values`;
the lemmas below (commutation with `filter` and `map`, the last element of the
sorted list, identity on equivalent elements) drive every claim about
`_build_index`, `match` and `merge_csv_files`.
-/

theorem orderedInsert_cons_of_forall {γ κ : Type} [LinearOrder κ] (key : γ → κ) (x : γ)
    (L : List γ) (h : ∀ z ∈ L, keyRel key x z) :
    orderedInsert (keyRel key) x L = x :: L := by
  cases L with
  | nil => rfl
  | cons z zs => exact orderedInsert_of_le (keyRel key) _ (h z (mem_cons_self z zs))

theorem filter_orderedInsert_of_sorted {γ κ : Type} [LinearOrder κ] (key : γ → κ)
    (p : γ → Bool) (x : γ) (L : List γ) (hL : Sorted (keyRel key) L) :
    (orderedInsert (keyRel key) x L).filter p =
      if p x then orderedInsert (keyRel key) x (L.filter p) else L.filter p := by
  induction L with
  | nil => by_cases hp : p x <;> simp [List.orderedInsert, hp]
  | cons y L ih =>
    by_cases hxy : keyRel key x y
    · rw [orderedInsert_of_le (keyRel key) _ hxy]
      by_cases hp : p x
      · rw [if_pos hp, filter_cons_of_pos hp]
        have hcons : orderedInsert (keyRel key) x ((y :: L).filter p) =
            x :: (y :: L).filter p := by
          refine orderedInsert_cons_of_forall key x _ fun z hz => ?_
          rcases mem_cons.mp (mem_of_mem_filter hz) with rfl | hzL
          · exact hxy
          · exact le_trans hxy (rel_of_sorted_cons hL z hzL)
        rw [hcons]
      · rw [if_neg hp, filter_cons_of_neg hp]
    · rw [List.orderedInsert, if_neg hxy]
      by_cases hp : p x <;> by_cases hpy : p y <;>
        simp [filter_cons, hp, hpy, ih hL.of_cons, List.orderedInsert, hxy]

theorem filter_insertionSort {γ κ : Type} [LinearOrder κ] (key : γ → κ)
    (p : γ → Bool) (l : List γ) :
    (insertionSort (keyRel key) l).filter p = insertionSort (keyRel key) (l.filter p) := by
  induction l with
  | nil => rfl
  | cons x xs ih =>
    rw [insertionSort,
      filter_orderedInsert_of_sorted key p x _ (sorted_insertionSort _ xs), ih]
    by_cases hp : p x
    · rw [if_pos hp, filter_cons_of_pos hp, insertionSort]
    · rw [if_neg hp, filter_cons_of_neg hp]

theorem getLast?_cons_of_ne_nil {γ : Type} (y : γ) {Z : List γ} (h : Z ≠ []) :
    (y :: Z).getLast? = Z.getLast? := by
  cases Z with
  | nil => exact absurd rfl h
  | cons z zs => exact getLast?_cons_cons

theorem mem_of_getLast?_eq_some {γ : Type} {l : List γ} {m : γ}
    (h : l.getLast? = some m) : m ∈ l := by
  induction l with
  | nil => cases h
  | cons x xs ih =>
    cases xs with
    | nil => simp only [getLast?_singleton, Option.some.injEq] at h; simp [h]
    | cons y ys =>
      rw [getLast?_cons_cons] at h
      exact mem_cons_of_mem x (ih h)

theorem orderedInsert_ne_nil {γ : Type} (r : γ → γ → Prop) [DecidableRel r]
    (x : γ) (L : List γ) : orderedInsert r x L ≠ [] := by
  cases L with
  | nil => simp
  | cons y ys => by_cases h : r x y <;> simp [List.orderedInsert, h]

theorem getLast?_orderedInsert {γ κ : Type} [LinearOrder κ] (key : γ → κ)
    (x : γ) (L : List γ) (hL : Sorted (keyRel key) L) :
    (orderedInsert (keyRel key) x L).getLast? =
      match L.getLast? with
      | none => some x
      | some m => if key m < key x then some x else some m := by
  induction L with
  | nil => rfl
  | cons y L ih =>
    by_cases hxy : keyRel key x y
    · rw [orderedInsert_of_le (keyRel key) _ hxy, getLast?_cons_cons]
      obtain ⟨m, hm⟩ : ∃ m, (y :: L).getLast? = some m := by
        cases h : (y :: L).getLast? with
        | none => exact absurd (getLast?_eq_none_iff.mp h) (cons_ne_nil y L)
        | some m => exact ⟨m, rfl⟩
      have hym : keyRel key y m := by
        rcases mem_cons.mp (mem_of_getLast?_eq_some hm) with rfl | hmL
        · exact le_refl _
        · exact rel_of_sorted_cons hL m hmL
      rw [hm]
      show some m = if key m < key x then some x else some m
      rw [if_neg (not_lt.mpr (le_trans hxy hym))]
    · rw [List.orderedInsert, if_neg hxy,
        getLast?_cons_of_ne_nil y (orderedInsert_ne_nil _ x L)]
      cases L with
      | nil =>
        simp only [List.orderedInsert, getLast?_singleton]
        rw [if_pos (not_le.mp hxy)]
      | cons z zs =>
        rw [ih hL.of_cons, getLast?_cons_cons]

theorem getLast?_insertionSort_eq_lastMaxBy {γ κ : Type} [LinearOrder κ] (key : γ → κ)
    (l : List γ) :
    (insertionSort (keyRel key) l).getLast? = lastMaxBy key l := by
  induction l with
  | nil => rfl
  | cons x xs ih =>
    rw [insertionSort,
      getLast?_orderedInsert key x _ (sorted_insertionSort _ xs), ih, lastMaxBy]

theorem orderedInsert_congr {γ : Type} (r₁ r₂ : γ → γ → Prop)
    [DecidableRel r₁] [DecidableRel r₂] (x : γ) (L : List γ)
    (h : ∀ y ∈ L, (r₁ x y ↔ r₂ x y)) :
    orderedInsert r₁ x L = orderedInsert r₂ x L := by
  induction L with
  | nil => rfl
  | cons y L ih =>
    by_cases hxy : r₁ x y
    · rw [orderedInsert_of_le r₁ _ hxy,
        orderedInsert_of_le r₂ _ ((h y (mem_cons_self y L)).mp hxy)]
    · rw [List.orderedInsert, if_neg hxy, List.orderedInsert,
        if_neg (fun hc => hxy ((h y (mem_cons_self y L)).mpr hc)),
        ih (fun z hz => h z (mem_cons_of_mem y hz))]

theorem insertionSort_congr {γ : Type} (r₁ r₂ : γ → γ → Prop)
    [DecidableRel r₁] [DecidableRel r₂] (l : List γ)
    (h : ∀ x ∈ l, ∀ y ∈ l, (r₁ x y ↔ r₂ x y)) :
    insertionSort r₁ l = insertionSort r₂ l := by
  induction l with
  | nil => rfl
  | cons x xs ih =>
    rw [insertionSort, insertionSort,
      ih (fun a ha b hb =>
        h a (mem_cons_of_mem x ha) b (mem_cons_of_mem x hb))]
    refine orderedInsert_congr r₁ r₂ x _ fun y hy => ?_
    have hy' : y ∈ xs := (mem_insertionSort r₂).mp hy
    exact h x (mem_cons_self x xs) y (mem_cons_of_mem x hy')

theorem insertionSort_eq_self_of_forall {γ κ : Type} [LinearOrder κ] (key : γ → κ)
    (l : List γ) (h : ∀ x ∈ l, ∀ y ∈ l, keyRel key x y) :
    insertionSort (keyRel key) l = l := by
  induction l with
  | nil => rfl
  | cons x xs ih =>
    rw [insertionSort,
      ih (fun a ha b hb => h a (mem_cons_of_mem x ha) b (mem_cons_of_mem x hb))]
    refine orderedInsert_cons_of_forall key x xs fun z hz => ?_
    exact h x (mem_cons_self x xs) z (mem_cons_of_mem x hz)

theorem lastMaxBy_eq_none_iff {γ κ : Type} [LinearOrder κ] (key : γ → κ) (l : List γ) :
    lastMaxBy key l = none ↔ l = [] := by
  cases l with
  | nil => simp [lastMaxBy]
  | cons x xs =>
    rw [lastMaxBy]
    cases h : lastMaxBy key xs with
    | none => simp
    | some m => by_cases hc : key m < key x <;> simp [hc]

theorem lastMaxBy_mem {γ κ : Type} [LinearOrder κ] (key : γ → κ) (l : List γ) :
    ∀ m : γ, lastMaxBy key l = some m → m ∈ l := by
  induction l with
  | nil => intro m h; cases h
  | cons x xs ih =>
    intro m h
    rw [lastMaxBy] at h
    cases hx : lastMaxBy key xs with
    | none =>
      rw [hx] at h
      have h2 : x = m := Option.some.inj h
      subst h2
      exact mem_cons_self x xs
    | some mp =>
      rw [hx] at h
      have h2 : (if key mp < key x then some x else some mp) = some m := h
      by_cases hc : key mp < key x
      · rw [if_pos hc] at h2
        have h3 : x = m := Option.some.inj h2
        subst h3
        exact mem_cons_self x xs
      · rw [if_neg hc] at h2
        have h3 : mp = m := Option.some.inj h2
        subst h3
        exact mem_cons_of_mem x (ih mp hx)

theorem lastMaxBy_le {γ κ : Type} [LinearOrder κ] (key : γ → κ) (l : List γ) :
    ∀ m : γ, lastMaxBy key l = some m → ∀ x ∈ l, key x ≤ key m := by
  induction l with
  | nil => intro m h; cases h
  | cons x xs ih =>
    intro m h
    rw [lastMaxBy] at h
    cases hx : lastMaxBy key xs with
    | none =>
      rw [hx] at h
      have hxs : xs = [] := (lastMaxBy_eq_none_iff key xs).mp hx
      subst hxs
      have h2 : x = m := Option.some.inj h
      subst h2
      intro z hz
      rcases mem_cons.mp hz with rfl | hzs
      · exact le_refl _
      · cases hzs
    | some mp =>
      rw [hx] at h
      have h2 : (if key mp < key x then some x else some mp) = some m := h
      intro z hz
      by_cases hc : key mp < key x
      · rw [if_pos hc] at h2
        have h3 : x = m := Option.some.inj h2
        subst h3
        rcases mem_cons.mp hz with rfl | hzs
        · exact le_refl _
        · exact le_trans (ih mp hx z hzs) (le_of_lt hc)
      · rw [if_neg hc] at h2
        have h3 : mp = m := Option.some.inj h2
        subst h3
        rcases mem_cons.mp hz with rfl | hzs
        · exact not_lt.mp hc
        · exact ih mp hx z hzs

theorem lastMaxBy_map {γ δ κ : Type} [LinearOrder κ] (key : γ → κ) (keyd : δ → κ)
    (f : γ → δ) (hf : ∀ x, keyd (f x) = key x) (l : List γ) :
    lastMaxBy keyd (l.map f) = (lastMaxBy key l).map f := by
  induction l with
  | nil => rfl
  | cons x xs ih =>
    rw [map_cons, lastMaxBy, lastMaxBy, ih]
    cases lastMaxBy key xs with
    | none => rfl
    | some m =>
      show (if keyd (f m) < keyd (f x) then some (f x) else some (f m)) =
        Option.map f (if key m < key x then some x else some m)
      rw [hf, hf]
      by_cases hc : key m < key x
      · rw [if_pos hc, if_pos hc]
        rfl
      · rw [if_neg hc, if_neg hc]
        rfl

theorem lastMaxBy_eq_getLast?_filter {γ κ : Type} [LinearOrder κ] [DecidableEq κ]
    (key : γ → κ) (t : κ) (l : List γ) (hbound : ∀ x ∈ l, key x ≤ t)
    (hatt : ∃ x ∈ l, key x = t) :
    lastMaxBy key l = (l.filter fun x => decide (key x = t)).getLast? := by
  induction l with
  | nil => exact absurd hatt (by simp)
  | cons x xs ih =>
    by_cases hxs : ∃ y ∈ xs, key y = t
    · have ihx := ih (fun z hz => hbound z (mem_cons_of_mem x hz)) hxs
      obtain ⟨y, hy, hyt⟩ := hxs
      have hfne : xs.filter (fun z => decide (key z = t)) ≠ [] := by
        intro hnil
        have := (List.filter_eq_nil_iff).mp hnil y hy
        simp [hyt] at this
      obtain ⟨m, hm⟩ : ∃ m, (xs.filter fun z => decide (key z = t)).getLast? = some m := by
        cases hglast : (xs.filter fun z => decide (key z = t)).getLast? with
        | none => exact absurd (getLast?_eq_none_iff.mp hglast) hfne
        | some m => exact ⟨m, rfl⟩
      have hmt : key m = t := by
        have h2 := (mem_filter.mp (mem_of_getLast?_eq_some hm)).2
        simpa using h2
      rw [lastMaxBy, ihx, hm]
      have hnotlt : ¬ key m < key x :=
        not_lt.mpr (hmt ▸ hbound x (mem_cons_self x xs))
      show (if key m < key x then some x else some m) = _
      rw [if_neg hnotlt, filter_cons]
      by_cases hxt : key x = t
      · rw [if_pos (show decide (key x = t) = true by simp [hxt]),
          getLast?_cons_of_ne_nil x hfne, hm]
      · rw [if_neg (show ¬ decide (key x = t) = true by simp [hxt])]
        exact hm.symm
    · push_neg at hxs
      have hxt : key x = t := by
        obtain ⟨z, hz, hzt⟩ := hatt
        rcases mem_cons.mp hz with rfl | hzs
        · exact hzt
        · exact absurd hzt (hxs z hzs)
      have hfnil : xs.filter (fun z => decide (key z = t)) = [] := by
        rw [List.filter_eq_nil_iff]
        intro z hz
        simp [hxs z hz]
      rw [lastMaxBy, filter_cons,
        if_pos (show decide (key x = t) = true by simp [hxt]), hfnil]
      cases hx : lastMaxBy key xs with
      | none => rfl
      | some m =>
        have hmlt : key m < key x := by
          rw [hxt]
          exact lt_of_le_of_ne
            (hbound m (mem_cons_of_mem x (lastMaxBy_mem key xs m hx)))
            (hxs m (lastMaxBy_mem key xs m hx))
        show (if key m < key x then some x else some m) = _
        rw [if_pos hmlt, getLast?_singleton]

theorem mem_pdUnique {γ : Type} [DecidableEq γ] (l : List γ) (a : γ) :
    a ∈ pdUnique l ↔ a ∈ l := by
  induction l with
  | nil => rfl
  | cons x xs ih =>
    rw [pdUnique]
    by_cases hax : a = x
    · subst hax
      simp
    · simp only [mem_cons, hax, false_or]
      rw [mem_filter, ih]
      simp [hax]

theorem nodup_pdUnique {γ : Type} [DecidableEq γ] (l : List γ) : (pdUnique l).Nodup := by
  induction l with
  | nil => exact nodup_nil
  | cons x xs ih =>
    rw [pdUnique, nodup_cons]
    refine ⟨fun hx => ?_, ih.filter _⟩
    have := (mem_filter.mp hx).2
    simp at this

theorem pdUnique_ne_nil {γ : Type} [DecidableEq γ] {l : List γ} (h : l ≠ []) :
    pdUnique l ≠ [] := by
  cases l with
  | nil => exact absurd rfl h
  | cons x xs =>
    rw [pdUnique]
    exact cons_ne_nil _ _

theorem flatten_map_perm {ε δ : Type} (as : List ε) (f g : ε → List δ)
    (h : ∀ a ∈ as, (f a).Perm (g a)) :
    ((as.map f).flatten).Perm ((as.map g).flatten) := by
  induction as with
  | nil => simp
  | cons a as ih =>
    rw [map_cons, map_cons, flatten_cons, flatten_cons]
    exact (h a (mem_cons_self a as)).append
      (ih fun b hb => h b (mem_cons_of_mem a hb))

theorem flatten_filter_partition_perm {δ ε : Type} [DecidableEq ε] (f : δ → ε) :
    ∀ (as : List ε), as.Nodup → ∀ (l : List δ), (∀ x ∈ l, f x ∈ as) →
      ((as.map fun a => l.filter fun x => f x == a).flatten).Perm l := by
  intro as
  induction as with
  | nil =>
    intro _ l hl
    cases l with
    | nil => simp
    | cons y ys => exact absurd (hl y (mem_cons_self y ys)) (not_mem_nil _)
  | cons a as ih =>
    intro hnd l hl
    rw [map_cons, flatten_cons]
    have hfilter : ∀ a' ∈ as, l.filter (fun x => f x == a') =
        (l.filter fun x => !(f x == a)).filter fun x => f x == a' := by
      intro a' ha'
      rw [filter_filter]
      refine (filter_congr fun x _ => ?_).symm
      by_cases hfx : f x = a'
      · have hne : a' ≠ a := fun hc => (nodup_cons.mp hnd).1 (hc ▸ ha')
        simp [hfx, hne]
      · simp [hfx]
    have hmap : (as.map fun a' => l.filter fun x => f x == a') =
        as.map fun a' => (l.filter fun x => !(f x == a)).filter fun x => f x == a' :=
      map_congr_left fun a' ha' => hfilter a' ha'
    rw [hmap]
    have hl' : ∀ x ∈ (l.filter fun x => !(f x == a)), f x ∈ as := by
      intro x hx
      obtain ⟨hxl, hxa⟩ := mem_filter.mp hx
      have : f x ≠ a := by simpa using hxa
      rcases mem_cons.mp (hl x hxl) with hfa | has
      · exact absurd hfa this
      · exact has
    refine Perm.trans (Perm.append (Perm.refl _)
      (ih (nodup_cons.mp hnd).2 _ hl')) ?_
    exact filter_append_perm (fun x => f x == a) l

/-!
## Characterisation of `match`

`match` attaches to the B row with original position `i` the payload
`asofPayload indexed b.address b.cycle`; when the index was built by
`_build_index` this equals the spec-side `specLookup`, and the reassembled
table is exactly DataFrame B in original order with that payload column.
-/

/-- The payload `match` attaches to a B row of address `a` and cycle `q`. -/
def asofPayload {α : Type} (indexed : List (RowA α)) (a : String) (q : Int) : Option α :=
  (((rightGroupFor indexed a).filter fun p => decide (p.1 ≤ q)).getLast?).map Prod.snd

/-- A B row tagged with its original position and the payload `match` computes
for it. -/
def taggedResult {α β : Type} (indexed : List (RowA α)) (p : Nat × RowB β) :
    Nat × RowB β × Option α :=
  (p.1, p.2, asofPayload indexed p.2.address p.2.cycle)

theorem rightGroupFor_buildIndex {α : Type} (rows : List (RowA α)) (a : String) :
    rightGroupFor (buildIndexRows rows) a =
      insertionSort (keyRel Prod.fst)
        ((rows.filter fun r => r.address == a).map fun r => (r.cycle, r.data)) := by
  unfold rightGroupFor buildIndexRows sortValuesBy
  rw [filter_insertionSort addrCycleKey (fun r => r.address == a) rows]
  have hY : ∀ x ∈ rows.filter (fun r => r.address == a), x.address = a := by
    intro x hx
    simpa using (mem_filter.mp hx).2
  have hcongr : insertionSort (keyRel addrCycleKey)
        (rows.filter fun r => r.address == a) =
      insertionSort (keyRel fun r : RowA α => r.cycle)
        (rows.filter fun r => r.address == a) := by
    refine insertionSort_congr _ _ _ fun x hx y hy => ?_
    show toLex (strKey x.address, x.cycle) ≤ toLex (strKey y.address, y.cycle) ↔
      x.cycle ≤ y.cycle
    rw [Prod.Lex.le_iff, hY x hx, hY y hy]
    simp
  rw [hcongr,
    map_insertionSort (keyRel fun r : RowA α => r.cycle) (keyRel Prod.fst)
      (fun r => (r.cycle, r.data)) _ (fun x _ y _ => Iff.rfl),
    Sorted.insertionSort_eq (sorted_insertionSort _ _)]

theorem asofPayload_eq_specLookup {α : Type} (rows : List (RowA α)) (a : String) (q : Int) :
    asofPayload (buildIndexRows rows) a q = specLookup rows a q := by
  unfold asofPayload specLookup
  rw [rightGroupFor_buildIndex,
    filter_insertionSort Prod.fst (fun p => decide (p.1 ≤ q)) _,
    filter_map, getLast?_insertionSort_eq_lastMaxBy,
    lastMaxBy_map (fun r : RowA α => r.cycle) Prod.fst
      (fun r => (r.cycle, r.data)) (fun x => rfl),
    Option.map_map]
  rfl

theorem matchResults_eq {α β : Type} (indexed : List (RowA α)) (rowsB : List (RowB β)) :
    matchResults indexed rowsB =
      (pdUnique (rowsB.map RowB.address)).map fun a =>
        (leftGroupFor rowsB a).map fun p => (p.1, p.2, asofPayload indexed a p.2.cycle) := by
  unfold matchResults
  refine map_congr_left fun a _ => ?_
  by_cases h : 0 < (rightGroupFor indexed a).length
  · rw [if_pos h]
    rfl
  · rw [if_neg h]
    have hnil : rightGroupFor indexed a = [] := by
      cases hrg : rightGroupFor indexed a with
      | nil => rfl
      | cons z zs => rw [hrg] at h; simp at h
    refine map_congr_left fun p _ => ?_
    simp [asofPayload, hnil]

theorem matchTable_eq {α β : Type} (indexed : List (RowA α)) (rowsB : List (RowB β)) :
    matchTable indexed rowsB =
      rowsB.map fun b => (b, asofPayload indexed b.address b.cycle) := by
  by_cases hB : rowsB = []
  · subst hB
    simp [matchTable, matchResults, pdUnique]
  · have haddr : pdUnique (rowsB.map RowB.address) ≠ [] :=
      pdUnique_ne_nil (by simpa using hB)
    have hlen : 0 < (matchResults indexed rowsB).length := by
      rw [matchResults, length_map]
      exact length_pos.mpr haddr
    have hstep1 : (matchResults indexed rowsB).flatten.Perm
        (rowsB.enum.map (taggedResult indexed)) := by
      rw [matchResults_eq]
      refine Perm.trans (flatten_map_perm _ _
        (fun a => (rowsB.enum.map (taggedResult indexed)).filter
          fun e => e.2.1.address == a) ?_) ?_
      · intro a _
        dsimp only
        have hEfilter : (rowsB.enum.map (taggedResult indexed)).filter
            (fun e => e.2.1.address == a) =
            (rowsB.enum.filter fun p => p.2.address == a).map (taggedResult indexed) := by
          rw [filter_map]
          rfl
        rw [hEfilter, leftGroupFor, sortValuesBy]
        have hmapeq : (rowsB.enum.filter fun p => p.2.address == a).map
              (fun p => (p.1, p.2, asofPayload indexed a p.2.cycle)) =
            (rowsB.enum.filter fun p => p.2.address == a).map (taggedResult indexed) := by
          refine map_congr_left fun p hp => ?_
          have hpa : p.2.address = a := by simpa using (mem_filter.mp hp).2
          rw [taggedResult, hpa]
        rw [← hmapeq]
        exact Perm.map _ (perm_insertionSort _ _)
      · refine flatten_filter_partition_perm
          (fun e : Nat × RowB β × Option α => e.2.1.address) _
          (nodup_pdUnique _) _ ?_
        intro e he
        obtain ⟨p, hp, rfl⟩ := mem_map.mp he
        have hp2 : p.2 ∈ rowsB := by
          have := mem_map_of_mem Prod.snd hp
          rwa [enum_map_snd] at this
        exact (mem_pdUnique _ _).mpr (mem_map_of_mem RowB.address hp2)
    have hpermSE : (sortValuesBy Prod.fst (matchResults indexed rowsB).flatten).Perm
        (rowsB.enum.map (taggedResult indexed)) :=
      (perm_insertionSort _ _).trans hstep1
    have hfstE : (rowsB.enum.map (taggedResult indexed)).map Prod.fst =
        range rowsB.length := by
      rw [map_map]
      have hcomp : (Prod.fst ∘ taggedResult indexed) = (Prod.fst : Nat × RowB β → Nat) :=
        rfl
      rw [hcomp, enum_map_fst]
    have hsortedE : Pairwise
        (fun e f : Nat × RowB β × Option α => Prod.fst e < Prod.fst f)
        (rowsB.enum.map (taggedResult indexed)) := by
      refine pairwise_map.mp ?_
      rw [hfstE]
      exact pairwise_lt_range _
    have hS_le : Pairwise
        (fun e f : Nat × RowB β × Option α => Prod.fst e ≤ Prod.fst f)
        (sortValuesBy Prod.fst (matchResults indexed rowsB).flatten) :=
      sorted_insertionSort (keyRel Prod.fst) _
    have hSfst_nodup :
        ((sortValuesBy Prod.fst (matchResults indexed rowsB).flatten).map Prod.fst).Nodup := by
      rw [Perm.nodup_iff (Perm.map Prod.fst hpermSE), hfstE]
      exact nodup_range _
    have hS_ne : Pairwise
        (fun e f : Nat × RowB β × Option α => Prod.fst e ≠ Prod.fst f)
        (sortValuesBy Prod.fst (matchResults indexed rowsB).flatten) :=
      pairwise_map.mp hSfst_nodup
    have hS_lt : Pairwise
        (fun e f : Nat × RowB β × Option α => Prod.fst e < Prod.fst f)
        (sortValuesBy Prod.fst (matchResults indexed rowsB).flatten) :=
      (hS_le.and hS_ne).imp fun h => lt_of_le_of_ne h.1 h.2
    haveI : IsAntisymm (Nat × RowB β × Option α)
        (fun e f => Prod.fst e < Prod.fst f) :=
      ⟨fun a b h h' => absurd h' (lt_asymm h)⟩
    have hfinal : sortValuesBy Prod.fst (matchResults indexed rowsB).flatten =
        rowsB.enum.map (taggedResult indexed) :=
      eq_of_perm_of_sorted hpermSE hS_lt hsortedE
    rw [matchTable, if_pos hlen, hfinal, map_map]
    conv_rhs => rw [← enum_map_snd rowsB, map_map]
    rfl

/-- After a successful `set_dataframes`, the stored state is exactly the two
frames with no cached index. -/
theorem set_dataframes_ok_state {α β : Type} (m₀ m : DataFrameMatcher α β)
    (dfa : DataFrameA α) (dfb : DataFrameB β)
    (h : m₀.set_dataframes dfa dfb = .ok m) :
    m = ⟨some dfa, some dfb, none⟩ := by
  unfold DataFrameMatcher.set_dataframes at h
  by_cases h1 : missingCols required_cols_a dfa.cols ≠ []
  · rw [if_pos h1] at h
    cases h
  · rw [if_neg h1] at h
    by_cases h2 : missingCols required_cols_b dfb.cols ≠ []
    · rw [if_pos h2] at h
      cases h
    · rw [if_neg h2] at h
      exact (Except.ok.inj h).symm

/-- The result of `match` after a successful `set_dataframes`: the table is
DataFrame B in original row order, each row extended with the spec-side
backward as-of payload, and the state caches the built index. -/
theorem do_match_of_set_dataframes {α β : Type} (m₀ m : DataFrameMatcher α β)
    (dfa : DataFrameA α) (dfb : DataFrameB β)
    (h : m₀.set_dataframes dfa dfb = .ok m) :
    m.do_match = .ok
      (⟨some dfa, some dfb, some (buildIndexRows dfa.rows)⟩,
       dfb.rows.map fun b => (b, specLookup dfa.rows b.address b.cycle)) := by
  rw [set_dataframes_ok_state m₀ m dfa dfb h]
  have hpay : ∀ b ∈ dfb.rows,
      ((b, asofPayload (buildIndexRows dfa.rows) b.address b.cycle) : RowB β × Option α) =
      (b, specLookup dfa.rows b.address b.cycle) := by
    intro b _
    rw [asofPayload_eq_specLookup]
  have hd : (⟨some dfa, some dfb, none⟩ : DataFrameMatcher α β).do_match =
      .ok ((⟨some dfa, some dfb, some (buildIndexRows dfa.rows)⟩ : DataFrameMatcher α β),
        matchTable (buildIndexRows dfa.rows) dfb.rows) := rfl
  rw [hd, matchTable_eq, map_congr_left hpay]

theorem mem_specFilter {α : Type} (rowsA : List (RowA α)) (a : String) (q : Int)
    (r : RowA α) :
    (r ∈ (rowsA.filter fun s => s.address == a).filter fun s => decide (s.cycle ≤ q)) ↔
      r ∈ rowsA ∧ r.address = a ∧ r.cycle ≤ q := by
  simp only [mem_filter, decide_eq_true_eq, beq_iff_eq, and_assoc]

/-- The three behavioural properties of the backward as-of lookup: the payload
exists iff some A record of the partition is at or before the query time; a
returned payload belongs to a record of maximal such time; an absent partition
yields an absent payload. -/
theorem specLookup_spec {α : Type} (rowsA : List (RowA α)) (a : String) (q : Int) :
    ((∃ r ∈ rowsA, r.address = a ∧ r.cycle ≤ q) ↔ (specLookup rowsA a q).isSome = true) ∧
    (∀ x : α, specLookup rowsA a q = some x →
      ∃ r ∈ rowsA, r.address = a ∧ r.cycle ≤ q ∧ r.data = x ∧
        ∀ s ∈ rowsA, s.address = a → s.cycle ≤ q → s.cycle ≤ r.cycle) ∧
    ((∀ r ∈ rowsA, r.address ≠ a) → specLookup rowsA a q = none) := by
  unfold specLookup
  cases hLM : lastMaxBy RowA.cycle
      ((rowsA.filter fun s => s.address == a).filter fun s => decide (s.cycle ≤ q)) with
  | none =>
    have hnil := (lastMaxBy_eq_none_iff (RowA.cycle) _).mp hLM
    refine ⟨?_, ?_, ?_⟩
    · constructor
      · rintro ⟨r, hr, hra, hrc⟩
        have hmem := (mem_specFilter rowsA a q r).mpr ⟨hr, hra, hrc⟩
        rw [hnil] at hmem
        cases hmem
      · intro hs
        simp at hs
    · intro x hx
      simp at hx
    · intro _
      rfl
  | some mrec =>
    have hmem := (mem_specFilter rowsA a q mrec).mp (lastMaxBy_mem RowA.cycle _ mrec hLM)
    refine ⟨?_, ?_, ?_⟩
    · constructor
      · intro _
        rfl
      · intro _
        exact ⟨mrec, hmem.1, hmem.2.1, hmem.2.2⟩
    · intro x hx
      have hx2 : mrec.data = x := by simpa using hx
      refine ⟨mrec, hmem.1, hmem.2.1, hmem.2.2, hx2, ?_⟩
      intro s hs hsa hsc
      exact lastMaxBy_le RowA.cycle _ mrec hLM s
        ((mem_specFilter rowsA a q s).mpr ⟨hs, hsa, hsc⟩)
    · intro habs
      exact absurd hmem.2.1 (habs mrec hmem.1)

/-!
## The unstable single-column sort

pandas documents the default `kind='quicksort'` of a single-column
`sort_values` as unstable: it guarantees a result sorted ascending by the key
and a permutation of the input, with the relative order of tied rows
unspecified.  `IsPdSortBy` is that contract; the tie-sensitive behaviour of
`match` (the re-sort of `matcher.py`, line 120) and of `merge_csv_files` with
a one-field sort list (`merger.py`, line 110) is settled against every
function satisfying it.  `antiStableSortBy` is one admissible such function
that reverses every tie class, and `sortValuesBy` is the stable one.
-/

/-- The documented contract of a single-column `sort_values` with the default
`kind='quicksort'`: the result is ascending in the key and a permutation of
the input; nothing is promised about the relative order of tied rows. -/
def IsPdSortBy {γ κ : Type} [LinearOrder κ] (key : γ → κ) (sort : List γ → List γ) : Prop :=
  ∀ l : List γ, Sorted (keyRel key) (sort l) ∧ (sort l).Perm l

theorem sortValuesBy_isPdSortBy {γ κ : Type} [LinearOrder κ] (key : γ → κ) :
    IsPdSortBy key (sortValuesBy key) :=
  fun l => ⟨sorted_insertionSort (keyRel key) l, perm_insertionSort (keyRel key) l⟩

/-- The stable sort preserves every key tie class in input order. -/
theorem sortValuesBy_filter_key_eq {γ κ : Type} [LinearOrder κ] [DecidableEq κ]
    (key : γ → κ) (l : List γ) (c : κ) :
    (sortValuesBy key l).filter (fun x => decide (key x = c)) =
      l.filter (fun x => decide (key x = c)) := by
  rw [sortValuesBy, filter_insertionSort]
  refine insertionSort_eq_self_of_forall key _ fun x hx y hy => ?_
  have hxc : key x = c := by simpa using (mem_filter.mp hx).2
  have hyc : key y = c := by simpa using (mem_filter.mp hy).2
  show key x ≤ key y
  rw [hxc, hyc]

/-- Insertion placing the new element after all rows whose key does not exceed
its own: the building block of the tie-reversing sort. -/
def orderedInsertStrict {γ κ : Type} [LinearOrder κ] (key : γ → κ) (x : γ) :
    List γ → List γ
  | [] => [x]
  | y :: ys => if key x < key y then x :: y :: ys else y :: orderedInsertStrict key x ys

/-- A sorting function satisfying the quicksort contract that reverses the
input order inside every tie class: a witness that the contract does not
promise stability. -/
def antiStableSortBy {γ κ : Type} [LinearOrder κ] (key : γ → κ) : List γ → List γ
  | [] => []
  | x :: xs => orderedInsertStrict key x (antiStableSortBy key xs)

theorem mem_orderedInsertStrict {γ κ : Type} [LinearOrder κ] (key : γ → κ)
    (x y : γ) (L : List γ) :
    y ∈ orderedInsertStrict key x L ↔ y = x ∨ y ∈ L := by
  induction L with
  | nil => simp [orderedInsertStrict]
  | cons z L ih =>
    rw [orderedInsertStrict]
    by_cases h : key x < key z
    · rw [if_pos h]
      simp
    · rw [if_neg h, mem_cons, ih, mem_cons, or_left_comm]

theorem perm_orderedInsertStrict {γ κ : Type} [LinearOrder κ] (key : γ → κ)
    (x : γ) (L : List γ) : (orderedInsertStrict key x L).Perm (x :: L) := by
  induction L with
  | nil => exact Perm.refl _
  | cons z L ih =>
    rw [orderedInsertStrict]
    by_cases h : key x < key z
    · rw [if_pos h]
    · rw [if_neg h]
      exact (ih.cons z).trans (Perm.swap x z L)

theorem sorted_orderedInsertStrict {γ κ : Type} [LinearOrder κ] (key : γ → κ)
    (x : γ) (L : List γ) (hL : Sorted (keyRel key) L) :
    Sorted (keyRel key) (orderedInsertStrict key x L) := by
  induction L with
  | nil => exact sorted_singleton x
  | cons z L ih =>
    rw [orderedInsertStrict]
    by_cases h : key x < key z
    · rw [if_pos h, sorted_cons]
      refine ⟨fun b hb => ?_, hL⟩
      rcases mem_cons.mp hb with rfl | hbL
      · exact le_of_lt h
      · exact le_trans (le_of_lt h) (rel_of_sorted_cons hL b hbL)
    · rw [if_neg h, sorted_cons]
      refine ⟨fun b hb => ?_, ih hL.of_cons⟩
      rcases (mem_orderedInsertStrict key x b L).mp hb with rfl | hbL
      · exact not_lt.mp h
      · exact rel_of_sorted_cons hL b hbL

theorem antiStableSortBy_isPdSortBy {γ κ : Type} [LinearOrder κ] (key : γ → κ) :
    IsPdSortBy key (antiStableSortBy key) := by
  intro l
  induction l with
  | nil => exact ⟨sorted_nil, Perm.refl _⟩
  | cons x xs ih =>
    rw [antiStableSortBy]
    exact ⟨sorted_orderedInsertStrict key x _ ih.1,
      (perm_orderedInsertStrict key x _).trans (ih.2.cons x)⟩

/-- `rightGroupFor` with the single-column re-sort of `matcher.py`, line 120
left as a parameter. -/
def rightGroupForWith {α : Type} (sortCycle : List (Int × α) → List (Int × α))
    (indexed : List (RowA α)) (a : String) : List (Int × α) :=
  sortCycle ((indexed.filter (fun r => r.address == a)).map (fun r => (r.cycle, r.data)))

/-- The payload `match` attaches to a B row of address `a` and cycle `q`, with
the single-column re-sort left as a parameter. -/
def asofPayloadWith {α : Type} (sortCycle : List (Int × α) → List (Int × α))
    (indexed : List (RowA α)) (a : String) (q : Int) : Option α :=
  (((rightGroupForWith sortCycle indexed a).filter fun p => decide (p.1 ≤ q)).getLast?).map
    Prod.snd

/-- The deployed `rightGroupFor` is the stable instance of the parametrized
form. -/
theorem rightGroupFor_eq_with {α : Type} (indexed : List (RowA α)) (a : String) :
    rightGroupFor indexed a = rightGroupForWith (sortValuesBy Prod.fst) indexed a :=
  rfl

/-- The deployed `asofPayload` is the stable instance of the parametrized
form. -/
theorem asofPayload_eq_with {α : Type} (indexed : List (RowA α)) (a : String) (q : Int) :
    asofPayload indexed a q = asofPayloadWith (sortValuesBy Prod.fst) indexed a q :=
  rfl

/-- Membership in the right-table input of partition `a` of the built index is
membership in partition `a` of A. -/
theorem mem_rightInput_buildIndex {α : Type} (rows : List (RowA α)) (a : String)
    (p : Int × α) :
    (p ∈ ((buildIndexRows rows).filter (fun r => r.address == a)).map
        (fun r => (r.cycle, r.data))) ↔
      ∃ r ∈ rows, r.address = a ∧ r.cycle = p.1 ∧ r.data = p.2 := by
  constructor
  · intro hp
    obtain ⟨r, hr, hpr⟩ := mem_map.mp hp
    obtain ⟨hr2, hra⟩ := mem_filter.mp hr
    refine ⟨r, ?_, by simpa using hra, ?_, ?_⟩
    · rw [buildIndexRows, sortValuesBy] at hr2
      exact (mem_insertionSort _).mp hr2
    · rw [← hpr]
    · rw [← hpr]
  · rintro ⟨r, hr, hra, hrc, hrd⟩
    have hr2 : r ∈ (buildIndexRows rows).filter (fun r => r.address == a) := by
      rw [mem_filter]
      refine ⟨?_, by simpa using hra⟩
      rw [buildIndexRows, sortValuesBy]
      exact (mem_insertionSort _).mpr hr
    refine mem_map.mpr ⟨r, hr2, ?_⟩
    show (r.cycle, r.data) = p
    rw [hrc, hrd]

/-- Under any sort satisfying the quicksort contract, the as-of payload for a
query at or above the maximal qualifying time `t` is read off the tie class of
`t` in the sorted right table: its last element's payload. -/
theorem asofPayloadWith_maxtie {α : Type} (sortCycle : List (Int × α) → List (Int × α))
    (hsort : IsPdSortBy Prod.fst sortCycle)
    (rows : List (RowA α)) (a : String) (t q : Int)
    (hq : t ≤ q)
    (hmax : ∀ r ∈ rows, r.address = a → r.cycle ≤ q → r.cycle ≤ t)
    (hne : rows.filter (fun r => r.address == a && decide (r.cycle = t)) ≠ []) :
    asofPayloadWith sortCycle (buildIndexRows rows) a q =
      (((sortCycle (((buildIndexRows rows).filter (fun r => r.address == a)).map
          (fun r => (r.cycle, r.data)))).filter
        (fun p => decide (p.1 = t))).getLast?).map Prod.snd := by
  obtain ⟨r0, hr0⟩ := exists_mem_of_ne_nil _ hne
  obtain ⟨hr0r, hr02⟩ := mem_filter.mp hr0
  obtain ⟨hr0a, hr0t⟩ : r0.address = a ∧ r0.cycle = t := by simpa using hr02
  have hWsorted : Sorted (keyRel (Prod.fst : Int × α → Int))
      (sortCycle (((buildIndexRows rows).filter (fun r => r.address == a)).map
        (fun r => (r.cycle, r.data)))) := (hsort _).1
  have hWperm := (hsort (((buildIndexRows rows).filter (fun r => r.address == a)).map
    (fun r => (r.cycle, r.data)))).2
  have hFs : Sorted (keyRel (Prod.fst : Int × α → Int))
      ((sortCycle (((buildIndexRows rows).filter (fun r => r.address == a)).map
        (fun r => (r.cycle, r.data)))).filter (fun p => decide (p.1 ≤ q))) :=
    hWsorted.filter _
  have hbound : ∀ x ∈ (sortCycle (((buildIndexRows rows).filter
      (fun r => r.address == a)).map (fun r => (r.cycle, r.data)))).filter
        (fun p => decide (p.1 ≤ q)), x.1 ≤ t := by
    intro x hx
    obtain ⟨hxW, hxq⟩ := mem_filter.mp hx
    obtain ⟨r, hr, hra, hrc, -⟩ :=
      (mem_rightInput_buildIndex rows a x).mp (hWperm.mem_iff.mp hxW)
    rw [← hrc]
    exact hmax r hr hra (hrc ▸ (by simpa using hxq))
  have hatt : ∃ x ∈ (sortCycle (((buildIndexRows rows).filter
      (fun r => r.address == a)).map (fun r => (r.cycle, r.data)))).filter
        (fun p => decide (p.1 ≤ q)), x.1 = t := by
    refine ⟨(r0.cycle, r0.data), ?_, hr0t⟩
    rw [mem_filter]
    constructor
    · refine hWperm.mem_iff.mpr ((mem_rightInput_buildIndex rows a _).mpr
        ⟨r0, hr0r, hr0a, rfl, rfl⟩)
    · simpa using hr0t ▸ hq
  unfold asofPayloadWith rightGroupForWith
  rw [show ((sortCycle (((buildIndexRows rows).filter (fun r => r.address == a)).map
        (fun r => (r.cycle, r.data)))).filter (fun p => decide (p.1 ≤ q))).getLast? =
      (insertionSort (keyRel (Prod.fst : Int × α → Int))
        ((sortCycle (((buildIndexRows rows).filter (fun r => r.address == a)).map
          (fun r => (r.cycle, r.data)))).filter (fun p => decide (p.1 ≤ q)))).getLast?
    from by rw [Sorted.insertionSort_eq hFs]]
  rw [getLast?_insertionSort_eq_lastMaxBy,
    lastMaxBy_eq_getLast?_filter Prod.fst t _ hbound hatt, filter_filter]
  have hfe : ((sortCycle (((buildIndexRows rows).filter (fun r => r.address == a)).map
        (fun r => (r.cycle, r.data)))).filter
        (fun x => decide (x.1 = t) && decide (x.1 ≤ q))) =
      ((sortCycle (((buildIndexRows rows).filter (fun r => r.address == a)).map
        (fun r => (r.cycle, r.data)))).filter (fun x => decide (x.1 = t))) := by
    refine filter_congr fun x _ => ?_
    by_cases hx : x.1 = t
    · simp [hx, hq]
    · simp [hx]
  rw [hfe]

/-- The tie class of `t` in the right-table input of partition `a` is the tie
class of A in original input order (the multi-column index build is
stable). -/
theorem rightInput_tie_class {α : Type} (rows : List (RowA α)) (a : String) (t : Int) :
    (((buildIndexRows rows).filter (fun r => r.address == a)).map
        (fun r => (r.cycle, r.data))).filter (fun p => decide (p.1 = t)) =
      (rows.filter (fun r => r.address == a && decide (r.cycle = t))).map
        (fun r => (r.cycle, r.data)) := by
  rw [filter_map]
  have hcomp : ((fun p : Int × α => decide (p.1 = t)) ∘ fun r : RowA α => (r.cycle, r.data)) =
      fun r : RowA α => decide (r.cycle = t) := rfl
  rw [hcomp, buildIndexRows, sortValuesBy,
    filter_insertionSort addrCycleKey (fun r => r.address == a) rows,
    filter_insertionSort addrCycleKey (fun r => decide (r.cycle = t)) _]
  have heq : insertionSort (keyRel addrCycleKey)
        ((rows.filter (fun r => r.address == a)).filter (fun r => decide (r.cycle = t))) =
      (rows.filter (fun r => r.address == a)).filter (fun r => decide (r.cycle = t)) := by
    refine insertionSort_eq_self_of_forall addrCycleKey _ fun x hx y hy => ?_
    obtain ⟨hx1, hxt⟩ := mem_filter.mp hx
    obtain ⟨hy1, hyt⟩ := mem_filter.mp hy
    have hxa : x.address = a := by simpa using (mem_filter.mp hx1).2
    have hya : y.address = a := by simpa using (mem_filter.mp hy1).2
    have hxc : x.cycle = t := by simpa using hxt
    have hyc : y.cycle = t := by simpa using hyt
    show toLex (strKey x.address, x.cycle) ≤ toLex (strKey y.address, y.cycle)
    rw [hxa, hya, hxc, hyc]
  rw [heq, filter_filter]
  refine congrArg _ (filter_congr fun r _ => ?_)
  by_cases h1 : r.cycle = t <;> by_cases h2 : r.address = a <;> simp [h1, h2]

/-- `merge_csv_files` with the row sort of `merger.py`, line 110 left as a
parameter (pandas takes the unstable single-column path when `sort_fields` has
one element). -/
def merge_csv_files_with {ρ : Type} (rowSort : List ρ → List ρ)
    (input_dir : Option (List (String × List ρ))) (sort_fields : List String) :
    Except MergerError (List ρ) :=
  match input_dir with
  | none => .error .invalidDir
  | some files =>
    if files.length = 0 then .error .noCsvFiles
    else if sort_fields ≠ [] then
      .ok (rowSort (((sortValuesBy (fun f => strKey f.1) files).map Prod.snd).flatten))
    else
      .ok (((sortValuesBy (fun f => strKey f.1) files).map Prod.snd).flatten)

/-- The deployed `merge_csv_files` is the stable instance of the parametrized
form. -/
theorem merge_csv_files_eq_with {ρ κ : Type} [LinearOrder κ] (cell : ρ → String → κ)
    (input_dir : Option (List (String × List ρ))) (sort_fields : List String) :
    merge_csv_files cell input_dir sort_fields =
      merge_csv_files_with (sortValuesBy fun r => sort_fields.map (cell r))
        input_dir sort_fields := by
  cases input_dir with
  | none => rfl
  | some files => rfl

/-!
## The claims
-/

/-- Concrete DataFrame A for the witnesses: 5 rows over 2 partitions, with a
time tie inside partition "x". -/
def dfaW : DataFrameA Nat :=
  ⟨["address", "data", "cycle"],
   [⟨"y", 7, 4⟩, ⟨"x", 110, 10⟩, ⟨"x", 120, 20⟩, ⟨"x", 130, 30⟩, ⟨"x", 115, 10⟩]⟩

/-- Concrete DataFrame B for the witnesses: 5 rows, one partition absent
from A. -/
def dfbW : DataFrameB Nat :=
  ⟨["cycle", "address", "way", "set"],
   [⟨"x", 15, 0⟩, ⟨"x", 25, 1⟩, ⟨"x", 30, 2⟩, ⟨"x", 5, 3⟩, ⟨"z", 100, 4⟩]⟩

/-- The matcher state after `set_dataframes dfaW dfbW`. -/
def matcherW : DataFrameMatcher Nat Nat :=
  ⟨some dfaW, some dfbW, none⟩

/-- Claim C1 (order preservation).  For every pair of source collections accepted
by `set_dataframes`, `match` returns a table whose row count equals B's and
whose row `i`, payload column aside, is exactly B's row `i`: rows are never
permuted, dropped or duplicated by the per-partition grouping and
reassembly. -/
theorem claim_C1_order_preservation {α β : Type} (m₀ m : DataFrameMatcher α β)
    (dfa : DataFrameA α) (dfb : DataFrameB β)
    (h : m₀.set_dataframes dfa dfb = .ok m) :
    ∃ out : DataFrameMatcher α β × List (RowB β × Option α),
      m.do_match = .ok out ∧
      out.2.length = dfb.rows.length ∧
      out.2.map Prod.fst = dfb.rows := by
  refine ⟨_, do_match_of_set_dataframes m₀ m dfa dfb h, ?_, ?_⟩
  · rw [length_map]
  · rw [map_map]
    exact map_id' dfb.rows

/-- Witness for C1 at the concrete frames. -/
theorem claim_C1_order_preservation_witness :
    ∃ out : DataFrameMatcher Nat Nat × List (RowB Nat × Option Nat),
      matcherW.do_match = .ok out ∧
      out.2.length = dfbW.rows.length ∧
      out.2.map Prod.fst = dfbW.rows :=
  claim_C1_order_preservation (DataFrameMatcher.new Nat Nat) matcherW dfaW dfbW (by rfl)

/-- Claim C2 (payload semantics).  For every accepted pair of sources, output row
`i` carries row `i` of B plus a payload that is non-null iff partition
`b.address` of A has a record at or before `b.cycle` (inclusive boundary); a
non-null payload is the `data` of such a record of maximal time; a partition
absent from A yields a null payload with no error. -/
theorem claim_C2_payload_semantics {α β : Type} (m₀ m : DataFrameMatcher α β)
    (dfa : DataFrameA α) (dfb : DataFrameB β)
    (h : m₀.set_dataframes dfa dfb = .ok m) :
    ∃ mo : DataFrameMatcher α β, ∃ res : List (RowB β × Option α),
      m.do_match = .ok (mo, res) ∧
      ∀ i : Nat, ∀ b : RowB β, dfb.rows[i]? = some b →
        ∃ d : Option α, res[i]? = some (b, d) ∧
          (d.isSome = true ↔ ∃ r ∈ dfa.rows, r.address = b.address ∧ r.cycle ≤ b.cycle) ∧
          (∀ x : α, d = some x →
            ∃ r ∈ dfa.rows, r.address = b.address ∧ r.cycle ≤ b.cycle ∧ r.data = x ∧
              ∀ s ∈ dfa.rows, s.address = b.address → s.cycle ≤ b.cycle →
                s.cycle ≤ r.cycle) ∧
          ((∀ r ∈ dfa.rows, r.address ≠ b.address) → d = none) := by
  refine ⟨_, _, do_match_of_set_dataframes m₀ m dfa dfb h, ?_⟩
  intro i b hb
  refine ⟨specLookup dfa.rows b.address b.cycle, ?_, ?_, ?_, ?_⟩
  · rw [getElem?_map, hb]
    rfl
  · exact ((specLookup_spec dfa.rows b.address b.cycle).1).symm
  · exact (specLookup_spec dfa.rows b.address b.cycle).2.1
  · exact (specLookup_spec dfa.rows b.address b.cycle).2.2

/-- Witness for C2 at the concrete frames. -/
theorem claim_C2_payload_semantics_witness :
    ∃ mo : DataFrameMatcher Nat Nat, ∃ res : List (RowB Nat × Option Nat),
      matcherW.do_match = .ok (mo, res) ∧
      ∀ i : Nat, ∀ b : RowB Nat, dfbW.rows[i]? = some b →
        ∃ d : Option Nat, res[i]? = some (b, d) ∧
          (d.isSome = true ↔ ∃ r ∈ dfaW.rows, r.address = b.address ∧ r.cycle ≤ b.cycle) ∧
          (∀ x : Nat, d = some x →
            ∃ r ∈ dfaW.rows, r.address = b.address ∧ r.cycle ≤ b.cycle ∧ r.data = x ∧
              ∀ s ∈ dfaW.rows, s.address = b.address → s.cycle ≤ b.cycle →
                s.cycle ≤ r.cycle) ∧
          ((∀ r ∈ dfaW.rows, r.address ≠ b.address) → d = none) :=
  claim_C2_payload_semantics (DataFrameMatcher.new Nat Nat) matcherW dfaW dfbW (by rfl)

/-- C3 counterexample.  pandas only promises the single-column re-sort inside
`match` (`sort_values('cycle')`, default quicksort) a sorted permutation with
unspecified tie order.  Under the admissible tie order that reverses ties,
collection A with the two tied records (x, 1, 10) and (x, 2, 10) queried at
time 12 yields payload 1 — the *earlier* record — while the claim demands the
later record's payload 2. -/
theorem claim_C3_counterexample :
    IsPdSortBy (Prod.fst : Int × Nat → Int) (antiStableSortBy Prod.fst) ∧
    asofPayloadWith (antiStableSortBy Prod.fst)
      (buildIndexRows [⟨"x", 1, 10⟩, ⟨"x", 2, 10⟩]) "x" 12 = some 1 ∧
    ((([⟨"x", 1, 10⟩, ⟨"x", 2, 10⟩] : List (RowA Nat)).filter
        (fun r => r.address == "x" && decide (r.cycle = 10))).getLast?).map RowA.data =
      some 2 :=
  ⟨antiStableSortBy_isPdSortBy Prod.fst, by rfl, by rfl⟩

/-- Claim C3, amended (tie handling).  The multi-column index build is stable:
each (address, time) tie class keeps the original input order of A and each
partition of the index is time-ascending.  For a query at or above a maximal
tied time, under *every* tie order the unstable single-column re-sort of
`match` may produce, the payload returned is the data of a member of that tie
class; and it is the record occurring last in A's original input order (last
write wins) whenever the re-sort preserves tie classes. -/
theorem claim_C3_amended_ties {α : Type} (sortCycle : List (Int × α) → List (Int × α))
    (hsort : IsPdSortBy Prod.fst sortCycle)
    (rows : List (RowA α)) (a : String) (t q : Int)
    (hq : t ≤ q)
    (hmax : ∀ r ∈ rows, r.address = a → r.cycle ≤ q → r.cycle ≤ t)
    (hne : rows.filter (fun r => r.address == a && decide (r.cycle = t)) ≠ []) :
    (buildIndexRows rows).filter (fun r => r.address == a && decide (r.cycle = t)) =
      rows.filter (fun r => r.address == a && decide (r.cycle = t)) ∧
    Pairwise (fun r s : RowA α => r.cycle ≤ s.cycle)
      ((buildIndexRows rows).filter fun r => r.address == a) ∧
    (∃ r ∈ rows.filter (fun r => r.address == a && decide (r.cycle = t)),
      asofPayloadWith sortCycle (buildIndexRows rows) a q = some r.data) ∧
    ((∀ (l : List (Int × α)) (c : Int),
        (sortCycle l).filter (fun p => decide (p.1 = c)) =
          l.filter (fun p => decide (p.1 = c))) →
      asofPayloadWith sortCycle (buildIndexRows rows) a q =
        ((rows.filter fun r => r.address == a && decide (r.cycle = t)).getLast?).map
          RowA.data) := by
  refine ⟨?_, ?_, ?_, ?_⟩
  · rw [buildIndexRows, sortValuesBy,
      filter_insertionSort addrCycleKey (fun r => r.address == a && decide (r.cycle = t)) rows]
    refine insertionSort_eq_self_of_forall addrCycleKey _ fun x hx y hy => ?_
    obtain ⟨-, hx2⟩ := mem_filter.mp hx
    obtain ⟨-, hy2⟩ := mem_filter.mp hy
    obtain ⟨hxa, hxt⟩ : x.address = a ∧ x.cycle = t := by simpa using hx2
    obtain ⟨hya, hyt⟩ : y.address = a ∧ y.cycle = t := by simpa using hy2
    show toLex (strKey x.address, x.cycle) ≤ toLex (strKey y.address, y.cycle)
    rw [hxa, hya, hxt, hyt]
  · have hsorted : Pairwise (keyRel addrCycleKey) (buildIndexRows rows) :=
      sorted_insertionSort (keyRel addrCycleKey) rows
    refine Pairwise.imp_of_mem ?_ (hsorted.filter _)
    intro x y hx hy hr
    have hxa : x.address = a := by simpa using (mem_filter.mp hx).2
    have hya : y.address = a := by simpa using (mem_filter.mp hy).2
    have : toLex (strKey x.address, x.cycle) ≤ toLex (strKey y.address, y.cycle) := hr
    rw [hxa, hya, Prod.Lex.le_iff] at this
    rcases this with hlt | ⟨-, hle⟩
    · exact absurd hlt (lt_irrefl _)
    · exact hle
  · have hcore := asofPayloadWith_maxtie sortCycle hsort rows a t q hq hmax hne
    obtain ⟨r0, hr0⟩ := exists_mem_of_ne_nil _ hne
    obtain ⟨hr0r, hr02⟩ := mem_filter.mp hr0
    obtain ⟨hr0a, hr0t⟩ : r0.address = a ∧ r0.cycle = t := by simpa using hr02
    have hWperm := (hsort (((buildIndexRows rows).filter (fun r => r.address == a)).map
      (fun r => (r.cycle, r.data)))).2
    have hmem0 : ((r0.cycle, r0.data) : Int × α) ∈
        (sortCycle (((buildIndexRows rows).filter (fun r => r.address == a)).map
          (fun r => (r.cycle, r.data)))).filter (fun p => decide (p.1 = t)) := by
      rw [mem_filter]
      refine ⟨hWperm.mem_iff.mpr ((mem_rightInput_buildIndex rows a _).mpr
        ⟨r0, hr0r, hr0a, rfl, rfl⟩), by simpa using hr0t⟩
    have hFne : (sortCycle (((buildIndexRows rows).filter (fun r => r.address == a)).map
        (fun r => (r.cycle, r.data)))).filter (fun p => decide (p.1 = t)) ≠ [] :=
      ne_nil_of_mem hmem0
    obtain ⟨x, hx⟩ : ∃ x, ((sortCycle (((buildIndexRows rows).filter
        (fun r => r.address == a)).map (fun r => (r.cycle, r.data)))).filter
          (fun p => decide (p.1 = t))).getLast? = some x := by
      cases hg : ((sortCycle (((buildIndexRows rows).filter
          (fun r => r.address == a)).map (fun r => (r.cycle, r.data)))).filter
            (fun p => decide (p.1 = t))).getLast? with
      | none => exact absurd (getLast?_eq_none_iff.mp hg) hFne
      | some x => exact ⟨x, rfl⟩
    have hxmem := mem_of_getLast?_eq_some hx
    obtain ⟨hxW, hxt⟩ := mem_filter.mp hxmem
    obtain ⟨r, hr, hra, hrc, hrd⟩ :=
      (mem_rightInput_buildIndex rows a x).mp (hWperm.mem_iff.mp hxW)
    refine ⟨r, mem_filter.mpr ⟨hr, ?_⟩, ?_⟩
    · have hxt2 : x.1 = t := by simpa using hxt
      simp [hra, hrc, hxt2]
    · rw [hcore, hx]
      simp [hrd]
  · intro htie
    have hcore := asofPayloadWith_maxtie sortCycle hsort rows a t q hq hmax hne
    rw [hcore, htie, rightInput_tie_class rows a t, getLast?_map, Option.map_map]
    rfl

/-- Concrete collection A for the C3 witness: a duplicated (address, time)
pair. -/
def rowsC3 : List (RowA Nat) :=
  [⟨"x", 1, 10⟩, ⟨"x", 2, 10⟩, ⟨"y", 9, 3⟩]

/-- Witness for the amended C3 at the concrete collection `rowsC3`, with the
stable sort as one admissible instance of the re-sort. -/
theorem claim_C3_amended_ties_witness :
    (buildIndexRows rowsC3).filter (fun r => r.address == "x" && decide (r.cycle = 10)) =
      rowsC3.filter (fun r => r.address == "x" && decide (r.cycle = 10)) ∧
    Pairwise (fun r s : RowA Nat => r.cycle ≤ s.cycle)
      ((buildIndexRows rowsC3).filter fun r => r.address == "x") ∧
    (∃ r ∈ rowsC3.filter (fun r => r.address == "x" && decide (r.cycle = 10)),
      asofPayloadWith (sortValuesBy Prod.fst) (buildIndexRows rowsC3) "x" 12 =
        some r.data) ∧
    ((∀ (l : List (Int × Nat)) (c : Int),
        (sortValuesBy Prod.fst l).filter (fun p => decide (p.1 = c)) =
          l.filter (fun p => decide (p.1 = c))) →
      asofPayloadWith (sortValuesBy Prod.fst) (buildIndexRows rowsC3) "x" 12 =
        ((rowsC3.filter fun r => r.address == "x" && decide (r.cycle = 10)).getLast?).map
          RowA.data) :=
  claim_C3_amended_ties (sortValuesBy Prod.fst) (sortValuesBy_isPdSortBy Prod.fst)
    rowsC3 "x" 10 12 (by decide) (by decide) (by decide)

/-- Claim C10 (empty B).  For an empty collection B and any accepted A, `match`
raises no error and returns the zero-row table with the payload column
appended and (vacuously) entirely null. -/
theorem claim_C10_empty_b {α β : Type} (m₀ m : DataFrameMatcher α β)
    (dfa : DataFrameA α) (dfb : DataFrameB β)
    (h : m₀.set_dataframes dfa dfb = .ok m) (hempty : dfb.rows = []) :
    ∃ mo : DataFrameMatcher α β, ∃ res : List (RowB β × Option α),
      m.do_match = .ok (mo, res) ∧ res = [] ∧
      res.map Prod.fst = dfb.rows ∧ ∀ p ∈ res, p.2 = (none : Option α) := by
  refine ⟨_, _, do_match_of_set_dataframes m₀ m dfa dfb h, ?_, ?_, ?_⟩
  · rw [hempty]
    rfl
  · rw [map_map]
    exact map_id' dfb.rows
  · intro p hp
    rw [hempty] at hp
    cases hp

/-- Empty DataFrame B used by the C10 witness. -/
def dfbEmpty : DataFrameB Nat :=
  ⟨["cycle", "address", "way", "set"], []⟩

/-- Witness for C10 at concrete frames. -/
theorem claim_C10_empty_b_witness :
    ∃ mo : DataFrameMatcher Nat Nat, ∃ res : List (RowB Nat × Option Nat),
      (DataFrameMatcher.do_match ⟨some dfaW, some dfbEmpty, none⟩) = .ok (mo, res) ∧
      res = [] ∧ res.map Prod.fst = dfbEmpty.rows ∧
      ∀ p ∈ res, p.2 = (none : Option Nat) :=
  claim_C10_empty_b (DataFrameMatcher.new Nat Nat) ⟨some dfaW, some dfbEmpty, none⟩
    dfaW dfbEmpty (by rfl) (by rfl)

theorem mem_missingCols (required cols : List String) (c : String) :
    c ∈ missingCols required cols ↔ c ∈ required ∧ c ∉ cols := by
  simp [missingCols, mem_filter]

theorem missingCols_eq_nil_iff (required cols : List String) :
    missingCols required cols = [] ↔ ∀ c ∈ required, c ∈ cols := by
  rw [missingCols, filter_eq_nil_iff]
  constructor
  · intro h c hc
    have := h c hc
    simpa using this
  · intro h c hc
    simpa using h c hc

/-- C4 counterexample: a collection B exposing exactly the time (`cycle`) and
partition-key (`address`) fields is rejected by `set_dataframes` — the code
also hard-requires `way` and `set`, contradicting the claim that only the
absence of time or partition_key from B causes a schema error. -/
theorem claim_C4_counterexample :
    (DataFrameMatcher.new Nat Nat).set_dataframes
        ⟨["address", "data", "cycle"], []⟩ ⟨["cycle", "address"], []⟩ =
      .error (.schemaErrorB ["way", "set"]) := by
  rfl

/-- Claim C4, amended.  `set_dataframes` accepts a pair of collections iff A
exposes all of `{address, data, cycle}` and B all of `{cycle, address, way,
set}` — extra caller-defined fields never matter; any error is a schema error
naming exactly the missing required fields of the offending collection, with
the A and B checks reporting distinct error sets. -/
theorem claim_C4_amended_schema {α β : Type} (m : DataFrameMatcher α β)
    (dfa : DataFrameA α) (dfb : DataFrameB β) :
    ((∃ m2, m.set_dataframes dfa dfb = .ok m2) ↔
      ((∀ c ∈ required_cols_a, c ∈ dfa.cols) ∧ (∀ c ∈ required_cols_b, c ∈ dfb.cols))) ∧
    (∀ e, m.set_dataframes dfa dfb = .error e →
      ((∃ l, e = .schemaErrorA l ∧ l ≠ [] ∧
          ∀ c, c ∈ l ↔ (c ∈ required_cols_a ∧ c ∉ dfa.cols)) ∨
       (∃ l, e = .schemaErrorB l ∧ l ≠ [] ∧
          ∀ c, c ∈ l ↔ (c ∈ required_cols_b ∧ c ∉ dfb.cols)))) := by
  unfold DataFrameMatcher.set_dataframes
  by_cases h1 : missingCols required_cols_a dfa.cols ≠ []
  · rw [if_pos h1]
    constructor
    · constructor
      · rintro ⟨m2, hm⟩
        cases hm
      · rintro ⟨hA, -⟩
        exact absurd ((missingCols_eq_nil_iff _ _).mpr hA) h1
    · intro e he
      exact Or.inl ⟨_, (Except.error.inj he).symm, h1, fun c => mem_missingCols _ _ c⟩
  · rw [if_neg h1]
    rw [not_ne_iff] at h1
    by_cases h2 : missingCols required_cols_b dfb.cols ≠ []
    · rw [if_pos h2]
      constructor
      · constructor
        · rintro ⟨m2, hm⟩
          cases hm
        · rintro ⟨-, hB⟩
          exact absurd ((missingCols_eq_nil_iff _ _).mpr hB) h2
      · intro e he
        exact Or.inr ⟨_, (Except.error.inj he).symm, h2, fun c => mem_missingCols _ _ c⟩
    · rw [if_neg h2]
      rw [not_ne_iff] at h2
      constructor
      · constructor
        · intro _
          exact ⟨(missingCols_eq_nil_iff _ _).mp h1, (missingCols_eq_nil_iff _ _).mp h2⟩
        · intro _
          exact ⟨_, rfl⟩
      · intro e he
        cases he

/-- Witness for the amended C4: a B table with the four required columns plus
an extra caller column is accepted. -/
theorem claim_C4_amended_schema_witness :
    ∃ m2 : DataFrameMatcher Nat Nat,
      (DataFrameMatcher.new Nat Nat).set_dataframes
        ⟨["address", "data", "cycle"], []⟩
        ⟨["cycle", "address", "way", "set", "extra"], []⟩ = .ok m2 :=
  (claim_C4_amended_schema (DataFrameMatcher.new Nat Nat)
      ⟨["address", "data", "cycle"], []⟩
      ⟨["cycle", "address", "way", "set", "extra"], []⟩).1.mpr
    ⟨by decide, by decide⟩

/-- Claim C5 (not-initialized error and recovery).  Calling `match` or the index
build before `set_dataframes` fails with the not-initialized error, which is a
different error from every schema error; after a subsequent successful
`set_dataframes` the same caller's `match` succeeds. -/
theorem claim_C5_not_initialized {α β : Type} (dfa : DataFrameA α) (dfb : DataFrameB β)
    (m : DataFrameMatcher α β)
    (hset : (DataFrameMatcher.new α β).set_dataframes dfa dfb = .ok m) :
    (DataFrameMatcher.new α β).do_match = .error .notInitialized ∧
    (DataFrameMatcher.new α β)._build_index = .error .notInitialized ∧
    (∀ l, MatcherError.notInitialized ≠ .schemaErrorA l ∧
          MatcherError.notInitialized ≠ .schemaErrorB l) ∧
    ∃ out, m.do_match = .ok out := by
  refine ⟨rfl, rfl, ?_, ?_⟩
  · intro l
    constructor
    · intro hc
      cases hc
    · intro hc
      cases hc
  · exact ⟨_, do_match_of_set_dataframes _ m dfa dfb hset⟩

/-- Witness for C5 at the concrete frames. -/
theorem claim_C5_not_initialized_witness :
    (DataFrameMatcher.new Nat Nat).do_match = .error .notInitialized ∧
    (DataFrameMatcher.new Nat Nat)._build_index = .error .notInitialized ∧
    (∀ l, MatcherError.notInitialized ≠ .schemaErrorA l ∧
          MatcherError.notInitialized ≠ .schemaErrorB l) ∧
    ∃ out, matcherW.do_match = .ok out :=
  claim_C5_not_initialized dfaW dfbW matcherW (by rfl)

/-- Claim C6 (eager schema error for A).  Whenever collection A misses a
required field, `set_dataframes` itself — never `match` — raises the A-schema
error, whose payload is exactly the missing required field names. -/
theorem claim_C6_schema_error_eager {α β : Type} (m : DataFrameMatcher α β)
    (dfa : DataFrameA α) (dfb : DataFrameB β)
    (h : missingCols required_cols_a dfa.cols ≠ []) :
    m.set_dataframes dfa dfb =
      .error (.schemaErrorA (missingCols required_cols_a dfa.cols)) ∧
    (∀ c, c ∈ missingCols required_cols_a dfa.cols ↔
      (c ∈ required_cols_a ∧ c ∉ dfa.cols)) := by
  constructor
  · unfold DataFrameMatcher.set_dataframes
    rw [if_pos h]
  · exact fun c => mem_missingCols _ _ c

/-- Witness for C6: an A collection lacking the `data` (payload) column. -/
theorem claim_C6_schema_error_eager_witness :
    (DataFrameMatcher.new Nat Nat).set_dataframes ⟨["address", "cycle"], []⟩ dfbW =
      .error (.schemaErrorA (missingCols required_cols_a ["address", "cycle"])) ∧
    (∀ c, c ∈ missingCols required_cols_a ["address", "cycle"] ↔
      (c ∈ required_cols_a ∧ c ∉ (["address", "cycle"] : List String))) :=
  claim_C6_schema_error_eager (DataFrameMatcher.new Nat Nat)
    ⟨["address", "cycle"], []⟩ dfbW (by decide)

/-- Claim C7 (statistics).  `get_match_statistics` returns the empty result when
sources are unset (no error), and after a successful `set_dataframes` it
reports, without modifying any state, the row counts of A and B, the number of
distinct partition keys of each, and the (min, max) of each collection's time
column. -/
theorem claim_C7_statistics {α β : Type} (m₀ m : DataFrameMatcher α β)
    (dfa : DataFrameA α) (dfb : DataFrameB β)
    (h : m₀.set_dataframes dfa dfb = .ok m) :
    (DataFrameMatcher.new α β).get_match_statistics = none ∧
    m.get_match_statistics = some
      ⟨dfa.rows.length, dfb.rows.length,
       (pdUnique (dfa.rows.map RowA.address)).length,
       (pdUnique (dfb.rows.map RowB.address)).length,
       ((dfa.rows.map RowA.cycle).min?, (dfa.rows.map RowA.cycle).max?),
       ((dfb.rows.map RowB.cycle).min?, (dfb.rows.map RowB.cycle).max?)⟩ := by
  refine ⟨rfl, ?_⟩
  rw [set_dataframes_ok_state m₀ m dfa dfb h]
  rfl

/-- Witness for C7: A = 5 rows over 2 partitions, B = 5 rows; the reported
statistics are `a_count = 5`, `unique_partitions_a = 2`, ranges (4, 30) and
(5, 100). -/
theorem claim_C7_statistics_witness :
    (DataFrameMatcher.new Nat Nat).get_match_statistics = none ∧
    matcherW.get_match_statistics = some ⟨5, 5, 2, 2, (some 4, some 30), (some 5, some 100)⟩ := by
  have h := claim_C7_statistics (DataFrameMatcher.new Nat Nat) matcherW dfaW dfbW (by rfl)
  exact ⟨h.1, h.2.trans (by rfl)⟩

/-- Cell accessor of the C9 rows: column "k" is the sort key, any other
column reads the second component. -/
def cellW (r : Int × Int) (c : String) : Int :=
  if c = "k" then r.1 else r.2

/-- Input directory for C9: two files, deliberately given out of name order,
with a key tie inside file "b". -/
def filesW : List (String × List (Int × Int)) :=
  [("b", [(1, 5), (1, 4)]), ("a", [(2, 3)])]

/-- C9 counterexample.  The claim asserts a stable sort for every non-empty
sort-field list, but a one-field list takes pandas' single-column quicksort
path, which only promises a sorted permutation.  Under the admissible tie
order that reverses ties, the concatenation [(2,3), (1,5), (1,4)] sorted by
the single field "k" is written as [(1,4), (1,5), (2,3)]: the rows tied on
"k" do *not* keep their relative concatenation order. -/
theorem claim_C9_counterexample :
    IsPdSortBy (fun r : Int × Int => ["k"].map (cellW r))
      (antiStableSortBy fun r : Int × Int => ["k"].map (cellW r)) ∧
    merge_csv_files_with (antiStableSortBy fun r : Int × Int => ["k"].map (cellW r))
      (some filesW) ["k"] = .ok [(1, 4), (1, 5), (2, 3)] ∧
    ¬ (([(1, 4), (1, 5), (2, 3)] : List (Int × Int)).filter
        (fun r => decide (["k"].map (cellW r) = [1])) =
      (((sortValuesBy (fun f => strKey f.1) filesW).map Prod.snd).flatten).filter
        (fun r => decide (["k"].map (cellW r) = [1]))) :=
  ⟨antiStableSortBy_isPdSortBy _, by rfl, by decide⟩

/-- Claim C9, amended (ingestion sort).  With a non-empty sort-field list the
written table is the file-name-ordered concatenation of all parts sorted
ascending by the caller's column list: under every tie order the sort step may
produce, the output is sorted and a permutation of the concatenation; and rows
tied on all sort fields keep their relative concatenation order whenever the
sort step preserves tie classes (as the stable multi-field `lexsort` path
does — the single-field quicksort path does not promise it). -/
theorem claim_C9_amended_sort {ρ κ : Type} [LinearOrder κ] (cell : ρ → String → κ)
    (sort_fields : List String) (rowSort : List ρ → List ρ)
    (hsort : IsPdSortBy (fun r => sort_fields.map (cell r)) rowSort)
    (files : List (String × List ρ)) (out : List ρ) (hsf : sort_fields ≠ [])
    (hmerge : merge_csv_files_with rowSort (some files) sort_fields = .ok out) :
    Sorted (keyRel fun r => sort_fields.map (cell r)) out ∧
    out.Perm (((sortValuesBy (fun f => strKey f.1) files).map Prod.snd).flatten) ∧
    ((∀ (l : List ρ) (v : List κ),
        (rowSort l).filter (fun r => decide (sort_fields.map (cell r) = v)) =
          l.filter (fun r => decide (sort_fields.map (cell r) = v))) →
      ∀ v : List κ, out.filter (fun r => decide (sort_fields.map (cell r) = v)) =
        (((sortValuesBy (fun f => strKey f.1) files).map Prod.snd).flatten).filter
          (fun r => decide (sort_fields.map (cell r) = v))) := by
  have hout : out =
      rowSort (((sortValuesBy (fun f => strKey f.1) files).map Prod.snd).flatten) := by
    simp only [merge_csv_files_with] at hmerge
    by_cases hf : files.length = 0
    · rw [if_pos hf] at hmerge
      cases hmerge
    · rw [if_neg hf, if_pos hsf] at hmerge
      exact (Except.ok.inj hmerge).symm
  refine ⟨?_, ?_, ?_⟩
  · rw [hout]
    exact (hsort _).1
  · rw [hout]
    exact (hsort _).2
  · intro htie v
    rw [hout, htie]

/-- Witness for the amended C9: with the stable sort (the multi-field
behaviour, and one admissible single-field behaviour), concatenation in
file-name order is [(2,3), (1,5), (1,4)] and the output is
[(1,5), (1,4), (2,3)], tied rows keeping their order. -/
theorem claim_C9_amended_sort_witness :
    Sorted (keyRel fun r => (["k"].map (cellW r) : List Int))
      [(1, 5), (1, 4), (2, 3)] ∧
    ([(1, 5), (1, 4), (2, 3)] : List (Int × Int)).Perm
      (((sortValuesBy (fun f => strKey f.1) filesW).map Prod.snd).flatten) ∧
    ((∀ (l : List (Int × Int)) (v : List Int),
        (sortValuesBy (fun r => ["k"].map (cellW r)) l).filter
            (fun r => decide (["k"].map (cellW r) = v)) =
          l.filter (fun r => decide (["k"].map (cellW r) = v))) →
      ∀ v : List Int,
        ([(1, 5), (1, 4), (2, 3)] : List (Int × Int)).filter
            (fun r => decide (["k"].map (cellW r) = v)) =
          (((sortValuesBy (fun f => strKey f.1) filesW).map Prod.snd).flatten).filter
            (fun r => decide (["k"].map (cellW r) = v))) :=
  claim_C9_amended_sort cellW ["k"] (sortValuesBy fun r => ["k"].map (cellW r))
    (sortValuesBy_isPdSortBy _) filesW [(1, 5), (1, 4), (2, 3)]
    (by decide) (by rfl)

/-!
## Object identity (claim C8)

To state that `set_dataframes` and `match` never mutate the caller's frames
and store non-aliasing copies, the embedding above is instrumented with
explicit Python object identity: a heap holds every DataFrame object of a
given shape, a reference is a heap index, `df.copy()` allocates a fresh
object with the same contents, and the in-place statements of `match`
(`merged['data'] = None`, `result_df.index.name = None`) only ever touch
freshly created objects, which the model folds into allocating the result
frame with its final contents.  All row computations reuse the pure functions
above.
-/

/-- A heap of Python objects of one shape; an object reference is its position
in `objs`. -/
structure ObjHeap (ρ : Type) where
  objs : List ρ
deriving Repr

/-- Dereference (`none` for a dangling reference, which Python never
produces). -/
def ObjHeap.deref {ρ : Type} (h : ObjHeap ρ) (i : Nat) : Option ρ :=
  h.objs[i]?

/-- Create a fresh object with contents `v`; returns the new heap and the new
reference. -/
def ObjHeap.alloc {ρ : Type} (h : ObjHeap ρ) (v : ρ) : ObjHeap ρ × Nat :=
  (⟨h.objs ++ [v]⟩, h.objs.length)

/-- Mutate object `i` in place (e.g. the caller updating their own frame). -/
def ObjHeap.write {ρ : Type} (h : ObjHeap ρ) (i : Nat) (v : ρ) : ObjHeap ρ :=
  ⟨h.objs.set i v⟩

theorem ObjHeap.deref_alloc_of_lt {ρ : Type} (h : ObjHeap ρ) (v : ρ) (i : Nat)
    (hi : i < h.objs.length) : (h.alloc v).1.deref i = h.deref i := by
  show (h.objs ++ [v])[i]? = h.objs[i]?
  rw [getElem?_append_left hi]

theorem ObjHeap.deref_alloc_self {ρ : Type} (h : ObjHeap ρ) (v : ρ) :
    (h.alloc v).1.deref (h.alloc v).2 = some v := by
  show (h.objs ++ [v])[h.objs.length]? = some v
  rw [getElem?_append_right (le_refl _)]
  simp

theorem ObjHeap.deref_write_ne {ρ : Type} (h : ObjHeap ρ) (i j : Nat) (v : ρ)
    (hij : i ≠ j) : (h.write i v).deref j = h.deref j := by
  show (h.objs.set i v)[j]? = h.objs[j]?
  rw [getElem?_set_ne hij]

/-- The heap of all DataFrame objects: A-shaped frames (including the cached
index, which is an A-shaped frame), B-shaped frames, and result frames. -/
structure PyState (α β : Type) where
  heapA : ObjHeap (DataFrameA α)
  heapB : ObjHeap (DataFrameB β)
  heapR : ObjHeap (List (RowB β × Option α))

/-- The matcher object: its attributes hold references, not values. -/
structure DataFrameMatcherObj where
  _df_a : Option Nat
  _df_b : Option Nat
  _indexed_df_a : Option Nat
deriving DecidableEq, Repr

/-- Operation `set_dataframes` with object identity: read the caller's frames, validate
(no allocation or write happens on the error paths), then store *copies*
(`self._df_a = df_a.copy()`, `self._df_b = df_b.copy()`): two fresh
allocations whose contents equal the caller's frames.  The dangling-reference
case cannot arise from Python and returns the state unchanged. -/
def set_dataframes_obj {α β : Type} (s : PyState α β) (ia ib : Nat) :
    PyState α β × Except MatcherError DataFrameMatcherObj :=
  match s.heapA.deref ia, s.heapB.deref ib with
  | some dfa, some dfb =>
    if missingCols required_cols_a dfa.cols ≠ [] then
      (s, .error (.schemaErrorA (missingCols required_cols_a dfa.cols)))
    else if missingCols required_cols_b dfb.cols ≠ [] then
      (s, .error (.schemaErrorB (missingCols required_cols_b dfb.cols)))
    else
      (⟨(s.heapA.alloc dfa).1, (s.heapB.alloc dfb).1, s.heapR⟩,
       .ok ⟨some (s.heapA.alloc dfa).2, some (s.heapB.alloc dfb).2, none⟩)
  | _, _ => (s, .error .notInitialized)

/-- Operation `match` with object identity: reads the stored copies, builds the index as
a fresh A-shaped frame when it is not cached (`sort_values` returns a new
object) and allocates the result table as a fresh object; the caller's frames
are never written.  Contents are the pure `matchTable`. -/
def match_obj {α β : Type} (s : PyState α β) (mo : DataFrameMatcherObj) :
    PyState α β × Except MatcherError (DataFrameMatcherObj × Nat) :=
  match mo._df_a, mo._df_b with
  | some ca, some cb =>
    match s.heapA.deref ca, s.heapB.deref cb with
    | some dfa, some dfb =>
      match mo._indexed_df_a with
      | some ci =>
        (⟨s.heapA, s.heapB,
          (s.heapR.alloc (matchTable ((s.heapA.deref ci).getD dfa).rows dfb.rows)).1⟩,
         .ok (mo, (s.heapR.alloc (matchTable ((s.heapA.deref ci).getD dfa).rows dfb.rows)).2))
      | none =>
        (⟨(s.heapA.alloc ⟨dfa.cols, buildIndexRows dfa.rows⟩).1, s.heapB,
          (s.heapR.alloc (matchTable (buildIndexRows dfa.rows) dfb.rows)).1⟩,
         .ok (⟨some ca, some cb, some (s.heapA.alloc ⟨dfa.cols, buildIndexRows dfa.rows⟩).2⟩,
              (s.heapR.alloc (matchTable (buildIndexRows dfa.rows) dfb.rows)).2))
    | _, _ => (s, .error .notInitialized)
  | _, _ => (s, .error .notInitialized)

/-- Claim C8 (no mutation of caller inputs, defensive copies).  For valid caller
references, a successful `set_dataframes` leaves the caller's A and B objects
unchanged, stores copies under fresh references distinct from the caller's (so
a later in-place mutation by the caller cannot reach the stored copies, and
vice versa), and any subsequent `match` still leaves the caller's objects
unchanged. -/
theorem claim_C8_no_mutation {α β : Type} (s s1 : PyState α β) (ia ib : Nat)
    (mo : DataFrameMatcherObj)
    (hia : ia < s.heapA.objs.length) (hib : ib < s.heapB.objs.length)
    (hset : set_dataframes_obj s ia ib = (s1, .ok mo)) :
    s1.heapA.deref ia = s.heapA.deref ia ∧
    s1.heapB.deref ib = s.heapB.deref ib ∧
    (∃ ca cb, mo = ⟨some ca, some cb, none⟩ ∧ ca ≠ ia ∧ cb ≠ ib ∧
      (∀ v, (s1.heapA.write ia v).deref ca = s1.heapA.deref ca) ∧
      (∀ w, (s1.heapB.write ib w).deref cb = s1.heapB.deref cb)) ∧
    (∀ s2 r, match_obj s1 mo = (s2, r) →
      s2.heapA.deref ia = s1.heapA.deref ia ∧
      s2.heapB.deref ib = s1.heapB.deref ib) := by
  obtain ⟨dfa, hdfa⟩ : ∃ dfa, s.heapA.deref ia = some dfa :=
    ⟨s.heapA.objs[ia], getElem?_eq_getElem hia⟩
  obtain ⟨dfb, hdfb⟩ : ∃ dfb, s.heapB.deref ib = some dfb :=
    ⟨s.heapB.objs[ib], getElem?_eq_getElem hib⟩
  unfold set_dataframes_obj at hset
  simp only [hdfa, hdfb] at hset
  by_cases h1 : missingCols required_cols_a dfa.cols ≠ []
  · rw [if_pos h1] at hset
    simp at hset
  · rw [if_neg h1] at hset
    by_cases h2 : missingCols required_cols_b dfb.cols ≠ []
    · rw [if_pos h2] at hset
      simp at hset
    · rw [if_neg h2] at hset
      obtain ⟨hs1, hmo⟩ := Prod.mk.inj hset
      have hmo2 : (⟨some (s.heapA.alloc dfa).2, some (s.heapB.alloc dfb).2, none⟩ :
          DataFrameMatcherObj) = mo := Except.ok.inj hmo
      subst hs1
      subst hmo2
      have hcane : s.heapA.objs.length ≠ ia := Nat.ne_of_gt hia
      have hcbne : s.heapB.objs.length ≠ ib := Nat.ne_of_gt hib
      refine ⟨ObjHeap.deref_alloc_of_lt _ _ _ hia, ObjHeap.deref_alloc_of_lt _ _ _ hib,
        ⟨(s.heapA.alloc dfa).2, (s.heapB.alloc dfb).2, rfl, hcane, hcbne,
          fun v => ObjHeap.deref_write_ne _ _ _ v (fun hc => hcane hc.symm),
          fun w => ObjHeap.deref_write_ne _ _ _ w (fun hc => hcbne hc.symm)⟩, ?_⟩
      intro s2 r hm
      unfold match_obj at hm
      have hread : ((s.heapA.alloc dfa).1).deref (s.heapA.alloc dfa).2 = some dfa :=
        ObjHeap.deref_alloc_self _ _
      have hreadb : ((s.heapB.alloc dfb).1).deref (s.heapB.alloc dfb).2 = some dfb :=
        ObjHeap.deref_alloc_self _ _
      simp only [hread, hreadb] at hm
      obtain ⟨hs2, -⟩ := Prod.mk.inj hm
      subst hs2
      constructor
      · show ((((s.heapA.alloc dfa).1).alloc _).1).deref ia = _
        refine ObjHeap.deref_alloc_of_lt _ _ _ ?_
        show ia < (s.heapA.objs ++ [dfa]).length
        rw [length_append]
        exact Nat.lt_succ_of_lt hia
      · rfl

/-- Caller-side heap for the C8 witness: one A frame and one B frame. -/
def stateW : PyState Nat Nat :=
  ⟨⟨[dfaW]⟩, ⟨[dfbW]⟩, ⟨[]⟩⟩

/-- Witness for C8 at a concrete heap. -/
theorem claim_C8_no_mutation_witness :
    stateW.heapA.deref 0 = some dfaW ∧
    ((⟨⟨[dfaW, dfaW]⟩, ⟨[dfbW, dfbW]⟩, ⟨[]⟩⟩ : PyState Nat Nat).heapA.deref 0 =
        stateW.heapA.deref 0 ∧
      (⟨⟨[dfaW, dfaW]⟩, ⟨[dfbW, dfbW]⟩, ⟨[]⟩⟩ : PyState Nat Nat).heapB.deref 0 =
        stateW.heapB.deref 0 ∧
      (∃ ca cb, (⟨some 1, some 1, none⟩ : DataFrameMatcherObj) = ⟨some ca, some cb, none⟩ ∧
        ca ≠ 0 ∧ cb ≠ 0 ∧
        (∀ v, ((⟨⟨[dfaW, dfaW]⟩, ⟨[dfbW, dfbW]⟩, ⟨[]⟩⟩ : PyState Nat Nat).heapA.write 0 v).deref ca =
          (⟨⟨[dfaW, dfaW]⟩, ⟨[dfbW, dfbW]⟩, ⟨[]⟩⟩ : PyState Nat Nat).heapA.deref ca) ∧
        (∀ w, ((⟨⟨[dfaW, dfaW]⟩, ⟨[dfbW, dfbW]⟩, ⟨[]⟩⟩ : PyState Nat Nat).heapB.write 0 w).deref cb =
          (⟨⟨[dfaW, dfaW]⟩, ⟨[dfbW, dfbW]⟩, ⟨[]⟩⟩ : PyState Nat Nat).heapB.deref cb)) ∧
      (∀ s2 r, match_obj (⟨⟨[dfaW, dfaW]⟩, ⟨[dfbW, dfbW]⟩, ⟨[]⟩⟩ : PyState Nat Nat)
          (⟨some 1, some 1, none⟩ : DataFrameMatcherObj) = (s2, r) →
        s2.heapA.deref 0 = (⟨⟨[dfaW, dfaW]⟩, ⟨[dfbW, dfbW]⟩, ⟨[]⟩⟩ : PyState Nat Nat).heapA.deref 0 ∧
        s2.heapB.deref 0 = (⟨⟨[dfaW, dfaW]⟩, ⟨[dfbW, dfbW]⟩, ⟨[]⟩⟩ : PyState Nat Nat).heapB.deref 0)) :=
  ⟨by rfl,
   claim_C8_no_mutation stateW ⟨⟨[dfaW, dfaW]⟩, ⟨[dfbW, dfbW]⟩, ⟨[]⟩⟩ 0 0
     ⟨some 1, some 1, none⟩ (by decide) (by decide) (by rfl)⟩

end PandasSolutions
